import Mathlib

/-!
Verification development for the graph-crawling and two-tier caching engine of
the `mornye-insight` repository (file `src/graphGenerator.ts`).

The TypeScript source is shallowly embedded as executable Lean definitions:

* VS Code positions are modeled as natural offsets, ranges as inclusive
  `[lo, hi]` intervals (mirroring `vscode.Range.contains`, which is inclusive
  on both ends), URIs as strings.
* The external symbol provider (the LSP `executeCommand` calls) is modeled as
  a record of pure functions returning `Except String` results; a `.error`
  models a thrown / rejected promise.  Each provider invocation increments a
  call counter in the crawl state, so "zero provider calls" claims can be
  stated.
* The two module-level caches (`rawCache`, `graphCache`), the per-crawl local
  structures (`nodes`, `edges`, `visited`), the call counter and the log are
  threaded as one explicit state record.  JavaScript `Map` is modeled as an
  insertion-ordered association list whose `set` updates in place.
* The source mutates one node object shared between `allNodes`, the raw cache
  and the growing `localEdges` array; the embedding mirrors this by rewriting
  both map entries with the updated node each time `outgoingEdges` changes.
* `buildDot` is pure rendering (out of scope per the specification); the
  cached `DotResult` is therefore modeled by the `(nodes, edges)` pair it is
  a pure function of, with `nodeIds` the list of node-map keys.
* Recursion through provider-supplied symbol chains is unbounded in general
  (the source relies on the workspace type population being finite), so the
  recursive crawl takes an explicit fuel parameter; all claims hold for every
  sufficiently large fuel, and fuel is only consumed when entering
  `crawlRelationships` or `expandFromCache`.
-/

/-- Character offset in a document (models `vscode.Position`). -/
abbrev Pos := Nat

/-- Models `vscode.Range` with inclusive endpoints; `contains` below matches
`Range.contains(position)` = `start ≤ pos ≤ end`. -/
structure Rng where
  lo : Nat
  hi : Nat
deriving DecidableEq, Repr

def rangeContains (r : Rng) (p : Pos) : Bool :=
  r.lo ≤ p && p ≤ r.hi

/-- The `vscode.SymbolKind` values the source inspects, plus a catch-all. -/
inductive SymbolKind where
  | classK
  | interfaceK
  | structK
  | enumK
  | fieldK
  | propertyK
  | methodK
  | functionK
  | enumMemberK
  | variableK
  | otherK
deriving DecidableEq, Repr

/-- `vscode.DocumentSymbol`: name, detail, kind, range, selectionRange,
children. -/
inductive DocumentSymbol where
  | mk (name : String) (detail : String) (kind : SymbolKind)
       (range : Rng) (selectionRange : Rng)
       (children : List DocumentSymbol)
deriving Repr

def DocumentSymbol.name : DocumentSymbol → String
  | .mk n _ _ _ _ _ => n

def DocumentSymbol.detail : DocumentSymbol → String
  | .mk _ d _ _ _ _ => d

def DocumentSymbol.kind : DocumentSymbol → SymbolKind
  | .mk _ _ k _ _ _ => k

def DocumentSymbol.range : DocumentSymbol → Rng
  | .mk _ _ _ r _ _ => r

def DocumentSymbol.selectionRange : DocumentSymbol → Rng
  | .mk _ _ _ _ s _ => s

def DocumentSymbol.children : DocumentSymbol → List DocumentSymbol
  | .mk _ _ _ _ _ c => c

mutual

/-- Decidable equality for the nested inductive (the `deriving` handler does
not support it). -/
def dsDecEq : (a b : DocumentSymbol) → Decidable (a = b)
  | .mk n1 d1 k1 r1 s1 c1, .mk n2 d2 k2 r2 s2 c2 =>
    haveI : Decidable (c1 = c2) := dsListDecEq c1 c2
    decidable_of_iff (n1 = n2 ∧ d1 = d2 ∧ k1 = k2 ∧ r1 = r2 ∧ s1 = s2 ∧ c1 = c2)
      (by rw [DocumentSymbol.mk.injEq])

def dsListDecEq : (a b : List DocumentSymbol) → Decidable (a = b)
  | [], [] => isTrue rfl
  | [], _ :: _ => isFalse (by simp)
  | _ :: _, [] => isFalse (by simp)
  | x :: xs, y :: ys =>
    haveI : Decidable (x = y) := dsDecEq x y
    haveI : Decidable (xs = ys) := dsListDecEq xs ys
    decidable_of_iff (x = y ∧ xs = ys) (by rw [List.cons.injEq])

end

instance : DecidableEq DocumentSymbol := dsDecEq

/-- A resolved definition target: the `(targetUri, targetSelectionRange.start)`
pair the source extracts from a `Location` / `LocationLink`. -/
structure Location where
  uri : String
  pos : Pos
deriving DecidableEq, Repr

/-- `vscode.SymbolInformation` as consumed by the workspace-symbol fallback. -/
structure SymbolInformation where
  name : String
  kind : SymbolKind
  loc : Location
deriving DecidableEq, Repr

/-- Edge relationship kinds (source union type). -/
inductive EdgeType where
  | inheritance
  | composition
  | implementation
deriving DecidableEq, Repr

/-- `GraphEdge` from the source.  `from` is a Lean keyword, so the field is
named `efrom` (and `eto` for symmetry); `etype` models `type`. -/
structure GraphEdge where
  efrom : String
  eto : String
  fromField : Option String
  etype : EdgeType
  label : Option String
deriving DecidableEq, Repr

/-- `GraphNode` from the source. -/
structure GraphNode where
  id : String
  label : String
  kind : SymbolKind
  isAbstract : Bool
  uri : String
  range : Rng
  children : List DocumentSymbol
  fields : List String
  outgoingEdges : Option (List GraphEdge)
deriving DecidableEq, Repr

/-- `DotResult`: the source caches `{dot, nodeIds}` where `dot` is the pure
rendering `buildDot(nodes, edges)`; the embedding keeps the underlying
`(nodes, edges)` pair. -/
structure DotResult where
  nodes : List (String × GraphNode)
  edges : List GraphEdge
deriving DecidableEq, Repr

def DotResult.nodeIds (r : DotResult) : List String :=
  r.nodes.map Prod.fst

/-- `const RESERVED_TYPES = new Set([...])`. -/
def RESERVED_TYPES : List String :=
  ["u8", "u16", "u32", "u64", "u128", "usize", "i8", "i16", "i32", "i64",
   "i128", "isize", "f32", "f64", "bool", "char", "str", "String", "Box",
   "Option", "Vec", "()"]

/-- The wrapper allow-list inside `unwrapType`. -/
def WRAPPER_TYPES : List String :=
  ["Vec", "Option", "Box", "Arc", "Rc", "RefCell", "Cell", "Mutex",
   "RwLock", "Result", "Unique", "NonNull"]

/-- Result record of `unwrapType`. -/
structure UnwrapResult where
  isWrapper : Bool
  innerType : Option String
  wrapperName : Option String
deriving DecidableEq, Repr

/-- JavaScript `\w` plus `:` — the character class of `^([\w:]+)<(.+)>$`. -/
def isWordColonChar (c : Char) : Bool :=
  c.isAlphanum || c = '_' || c = ':'

/-- Matches `^([\w:]+)<(.+)>$` against a character list, returning the two
capture groups.  The leading group is necessarily the maximal run of
word/colon characters (backtracking cannot help since `<` is outside the
class), `.` does not cross line terminators, and both groups must be
nonempty. -/
def matchNameAngle (s : List Char) : Option (List Char × List Char) :=
  let p := s.takeWhile isWordColonChar
  if p.isEmpty then none
  else
    match s.drop p.length with
    | '<' :: body =>
      match body.getLast? with
      | some '>' =>
        let inner := body.dropLast
        if inner.isEmpty || inner.any (fun c => c = '\n' || c = '\r') then none
        else some (p, inner)
      | _ => none
    | _ => none

/-- The last segment of `wrapper.split('::')` (JavaScript splits on the
two-character separator left to right, non-overlapping; the segment after the
final separator is the `.pop()` result).  Implemented structurally so the
kernel can evaluate it; core `String.splitOn` uses well-founded recursion. -/
def lastColonSegment : List Char → List Char → List Char
  | [], acc => acc.reverse
  | ':' :: ':' :: rest, _ => lastColonSegment rest []
  | c :: rest, acc => lastColonSegment rest (c :: acc)

/-- `wrapper.split('::').pop() || wrapper` — strip namespace qualifiers,
falling back to the whole name when the last segment is empty. -/
def wrapperBaseName (wrapper : List Char) : List Char :=
  let seg := lastColonSegment wrapper []
  if seg.isEmpty then wrapper else seg

/-- JavaScript `String.prototype.trim` on a character list. -/
def listTrim (cs : List Char) : List Char :=
  ((cs.dropWhile Char.isWhitespace).reverse.dropWhile Char.isWhitespace).reverse

/-- One-state-per-iteration version of the `while (true)` loop in
`unwrapType`.  Each successful iteration strictly shrinks `currentType`
(the inner group is at least three characters shorter, and trimming /
first-argument splitting never grows it), so fuel `typeStr.length + 1`
always suffices and the fuel-out branch is unreachable from `unwrapType`. -/
def unwrapGo : Nat → List Char → Bool → List Char → UnwrapResult
  | 0, cur, found, wname =>
    if found then ⟨true, some (String.mk cur), some (String.mk wname)⟩
    else ⟨false, none, none⟩
  | fuel + 1, cur, found, wname =>
    match matchNameAngle cur with
    | some (p, innerCs) =>
      let base := wrapperBaseName p
      if WRAPPER_TYPES.contains (String.mk base) then
        let wname1 :=
          if wname.isEmpty then base else wname ++ '<' :: base ++ ['>']
        let cur1 := listTrim innerCs
        let cur2 :=
          if cur1.contains ',' then
            -- `currentType.split(',')[0].trim()`: the first comma-separated
            -- argument is everything before the first comma.
            listTrim (cur1.takeWhile (fun c => !(c = ',')))
          else cur1
        unwrapGo fuel cur2 true wname1
      else
        if found then ⟨true, some (String.mk cur), some (String.mk wname)⟩
        else ⟨false, none, none⟩
    | none =>
      if found then ⟨true, some (String.mk cur), some (String.mk wname)⟩
      else ⟨false, none, none⟩

/-- `function unwrapType(typeStr)` from the source. -/
def unwrapType (typeStr : String) : UnwrapResult :=
  unwrapGo (typeStr.length + 1) typeStr.toList false []

/-- `function isTypeSymbol(kind)`. -/
def isTypeSymbol (kind : SymbolKind) : Bool :=
  match kind with
  | .classK | .interfaceK | .structK | .enumK => true
  | _ => false

/-- The `Property || Field` test the crawler applies to child symbols. -/
def isFieldLike (kind : SymbolKind) : Bool :=
  match kind with
  | .propertyK | .fieldK => true
  | _ => false

/-- `Array.prototype.join('#')`, implemented structurally (core
`String.intercalate` does not reduce in the kernel). -/
def joinHash : List String → String
  | [] => ""
  | [s] => s
  | s :: rest => s ++ "#" ++ joinHash rest

/-- `function getTypeUniqueId(symbolChain, uri)`:
`` `${uri.toString()}#${chain.map(s => s.name).join('#')}` ``. -/
def getTypeUniqueId (symbolChain : List DocumentSymbol) (uri : String) : String :=
  uri ++ "#" ++ joinHash (symbolChain.map DocumentSymbol.name)

mutual

/-- `function findSymChain(syms, pos, chain)`: descend into the first symbol
whose range contains `pos`, preferring a strictly longer child chain.  The
loop body (return on the first containing symbol, skip otherwise) is the
mutual `findSymChainOne`; the mutual shape keeps the recursion structural. -/
def findSymChain : List DocumentSymbol → Pos → List DocumentSymbol → List DocumentSymbol
  | [], _, chain => chain
  | s :: rest, pos, chain =>
    match findSymChainOne s pos chain with
    | some res => res
    | none => findSymChain rest pos chain

/-- One iteration of the `findSymChain` loop: `some` when the symbol's range
contains the position (the loop returns), `none` when it is skipped. -/
def findSymChainOne : DocumentSymbol → Pos → List DocumentSymbol → Option (List DocumentSymbol)
  | .mk n d k r sr cs, pos, chain =>
    if rangeContains r pos then
      let newChain := chain ++ [DocumentSymbol.mk n d k r sr cs]
      let childrenResult := findSymChain cs pos newChain
      some (if newChain.length < childrenResult.length then childrenResult else newChain)
    else none

end

/-- Association-list lookup, modeling `Map.prototype.get`. -/
def listLookup {α : Type} : List (String × α) → String → Option α
  | [], _ => none
  | (k2, v) :: rest, k => if k2 = k then some v else listLookup rest k

/-- Association-list update, modeling `Map.prototype.set`: an existing key is
updated in place (keeping its insertion position), a new key is appended. -/
def mapSet {α : Type} : List (String × α) → String → α → List (String × α)
  | [], k, v => [(k, v)]
  | (k2, v2) :: rest, k, v =>
    if k2 = k then (k, v) :: rest else (k2, v2) :: mapSet rest k v

/-- The full mutable state of the subsystem: the two module-level caches of
`GraphCacheManager`, the per-crawl local structures of
`generateGraphFromNode` / `crawlRelationships`, an external-provider call
counter and the log. -/
structure St where
  allNodes : List (String × GraphNode)
  edges : List GraphEdge
  visited : List String
  rawCache : List (String × GraphNode)
  graphCache : List (String × DotResult)
  calls : Nat
  log : List String
deriving DecidableEq, Repr

/-- The state at extension start: both caches empty, nothing crawled. -/
def St.empty : St :=
  { allNodes := [], edges := [], visited := [], rawCache := [],
    graphCache := [], calls := 0, log := [] }

/-- Record one external provider invocation (an `executeCommand` LSP call). -/
def bump (st : St) : St :=
  { st with calls := st.calls + 1 }

def pushLog (st : St) (msg : String) : St :=
  { st with log := st.log ++ [msg] }

/-- The external collaborators of the crawler: the four LSP commands (each of
which may reject, modeled as `.error`), the synchronous workspace helpers and
the merged `files.exclude` / `search.exclude` pattern list together with the
`minimatch` matcher (an external library, modeled as an oracle). -/
structure Env where
  documentSymbols : String → Except String (Option (List DocumentSymbol))
  typeDefinition : String → Pos → Except String (List Location)
  definitionProvider : String → Pos → Except String (List Location)
  workspaceSymbols : String → Except String (List SymbolInformation)
  getWorkspaceFolder : String → Option String
  asRelativePath : String → String
  excludePatterns : List String
  minimatchFn : String → String → Bool

/-- `GraphCacheManager.invalidate(uri)`: delete every raw entry whose node
`uri` matches (the JavaScript for-loop deletion over the `Map` is equivalent
to a filter), then unconditionally clear the graph cache. -/
def invalidateCache (st : St) (uri : String) : St :=
  { st with
    rawCache := st.rawCache.filter (fun p => !(p.2.uri = uri)),
    graphCache := [],
    log := st.log ++ ["Cache invalidated for " ++ uri] }

/-- The duplicate-suppressing push used on both cache-replay paths:
`if (!edges.some(e => e.from === edge.from && e.to === edge.to &&
e.fromField === edge.fromField)) edges.push(edge)`. -/
def dedupPushEdge (st : St) (e : GraphEdge) : St :=
  if st.edges.any (fun x =>
      x.efrom = e.efrom && x.eto = e.eto && x.fromField == e.fromField) then
    st
  else
    { st with edges := st.edges ++ [e] }

/-- `async function expandFromCache(node, allNodes, edges, visited, logger)`:
replay a cached node's outgoing edges, marking each target visited before
following it, purely from the raw cache. -/
def expandFromCache : Nat → GraphNode → St → St
  | 0, _, st => st
  | n + 1, node, st =>
    match node.outgoingEdges with
    | none => st
    | some es =>
      es.foldl (fun st1 edge =>
        let st2 := dedupPushEdge st1 edge
        if st2.visited.contains edge.eto then st2
        else
          let st3 := { st2 with visited := st2.visited ++ [edge.eto] }
          match listLookup st3.rawCache edge.eto with
          | none => st3
          | some tn =>
            expandFromCache n tn
              { st3 with allNodes := mapSet st3.allNodes edge.eto tn }) st

/-- The full-hit splice loop in `crawlRelationships` (source lines 223-234):
for each cached outgoing edge, dedup-push it, pull the target from the raw
cache into the result and expand it from cache.  Note that — unlike
`expandFromCache` — this loop does not add the direct targets to the visited
set. -/
def spliceStep (n : Nat) (st1 : St) (edge : GraphEdge) : St :=
  let st2 := dedupPushEdge st1 edge
  match listLookup st2.rawCache edge.eto with
  | none => st2
  | some tn =>
    expandFromCache n tn { st2 with allNodes := mapSet st2.allNodes edge.eto tn }

def spliceCached (n : Nat) (outEdges : List GraphEdge) (st : St) : St :=
  outEdges.foldl (spliceStep n) st

/-- The node object freshly built on a cache miss / partial hit (source lines
242-253). -/
def mkFreshNode (symbol : DocumentSymbol) (uri id : String) : GraphNode :=
  { id := id, label := symbol.name, kind := symbol.kind, isAbstract := false,
    uri := uri, range := symbol.range, children := symbol.children,
    fields := (symbol.children.filter (fun c => isFieldLike c.kind)).map
      (fun c => c.name ++ (if c.detail = "" then "" else ": " ++ c.detail)),
    outgoingEdges := none }

/-- Source lines 271-280: `typeDefinition` first, then — only when that came
back empty — a plain `definition` lookup.  Each invocation is counted even
when it rejects. -/
def resolveDefs (env : Env) (uri : String) (p : Pos) (st : St) :
    St × Except String (List Location) :=
  let st1 := bump st
  match env.typeDefinition uri p with
  | .error e => (st1, .error e)
  | .ok defs0 =>
    if defs0.isEmpty then (bump st1, env.definitionProvider uri p)
    else (st1, .ok defs0)

/-- Source lines 362-364 (and 315-317): the merged exclude patterns applied
with `minimatch` to the workspace-relative path. -/
def isExcluded (env : Env) (uri : String) : Bool :=
  env.excludePatterns.any (fun p => env.minimatchFn (env.asRelativePath uri) p)

/-- The `tryExpandWrapper` closure (source lines 294-354): when the resolved
definition is external or excluded but the field type was a recognized
wrapper, search workspace symbols for the unwrapped payload name, keep the
first exact-name type-like match, re-check exclusion for that location, and
record an edge to it (recursing when unvisited).  `crawlFn` is the recursive
crawl at one less fuel; the third component of the result is a pending
exception (`catch` happens at the per-field level). -/
def tryExpandWrapper (crawlFn : List DocumentSymbol → String → St → St)
    (env : Env) (fromId : String) (child : DocumentSymbol) (u : UnwrapResult)
    (st : St) (localEdges : List GraphEdge) :
    St × List GraphEdge × Option String :=
  match u.isWrapper, u.innerType with
  | true, some inner =>
    if inner = "" then (st, localEdges, none)
    else
      let st1 := bump (pushLog st ("    ? Wrapper " ++ u.wrapperName.getD ""
        ++ " is external/excluded. Searching workspace for inner type: "
        ++ inner ++ "..."))
      match env.workspaceSymbols inner with
      | .error e => (st1, localEdges, some e)
      | .ok results =>
        if results.isEmpty then (st1, localEdges, none)
        else
          match results.find? (fun s =>
              s.name = inner && isTypeSymbol s.kind) with
          | none =>
            (pushLog st1 ("    x Inner type " ++ inner
              ++ " not found in workspace symbols."), localEdges, none)
          | some tsi =>
            let st2 := pushLog st1 ("    ! Found inner type " ++ inner
              ++ " in workspace: " ++ tsi.loc.uri)
            let innerUri := tsi.loc.uri
            let innerExcluded :=
              (env.getWorkspaceFolder innerUri).isNone || isExcluded env innerUri
            if innerExcluded then (st2, localEdges, none)
            else
              let st3 := bump st2
              match env.documentSymbols innerUri with
              | .error e => (st3, localEdges, some e)
              | .ok none => (st3, localEdges, none)
              | .ok (some innerDocSymbols) =>
                let innerChain := findSymChain innerDocSymbols tsi.loc.pos []
                match innerChain.getLast? with
                | some innerSym =>
                  if isTypeSymbol innerSym.kind then
                    let targetId := getTypeUniqueId innerChain innerUri
                    let newEdge : GraphEdge :=
                      { efrom := fromId, eto := targetId,
                        fromField := some child.name, etype := .composition,
                        label := u.wrapperName }
                    let st4 := { st3 with edges := st3.edges ++ [newEdge] }
                    let le1 := localEdges ++ [newEdge]
                    let st5 :=
                      if st4.visited.contains targetId then st4
                      else crawlFn innerChain innerUri st4
                    (st5, le1, none)
                  else (st3, localEdges, none)
                | none => (st3, localEdges, none)
  | _, _ => (st, localEdges, none)

/-- The body of the per-field `try` block (source lines 269-404): resolve the
field position via `typeDefinition`, falling back to `definition`; check the
workspace / exclude-pattern gate (invoking the wrapper fallback when it
fails); look up the target document symbols, and if the chain at the target
position ends in a type-like symbol, record a composition edge and recurse
when the target is unvisited.  A `some` in the third component is an
uncaught exception at that point. -/
def resolveField (crawlFn : List DocumentSymbol → String → St → St)
    (env : Env) (uri fromId targetName : String) (child : DocumentSymbol)
    (u : UnwrapResult) (st : St) (localEdges : List GraphEdge) :
    St × List GraphEdge × Option String :=
  match resolveDefs env uri child.selectionRange.lo st with
  | (st2, .error e) => (st2, localEdges, some e)
  | (st2, .ok defs) =>
      match defs with
      | [] =>
        (pushLog st2 ("    - Primitive or no definition found for "
          ++ targetName), localEdges, none)
      | d :: _ =>
        match env.getWorkspaceFolder d.uri with
        | none =>
          let st3 := pushLog st2 ("    - Skipping external definition: "
            ++ d.uri)
          tryExpandWrapper crawlFn env fromId child u st3 localEdges
        | some _ =>
          if isExcluded env d.uri then
            let st3 := pushLog st2 ("    - Skipping excluded file: "
              ++ env.asRelativePath d.uri)
            tryExpandWrapper crawlFn env fromId child u st3 localEdges
          else
            let st3 := bump st2
            match env.documentSymbols d.uri with
            | .error e => (st3, localEdges, some e)
            | .ok none => (st3, localEdges, none)
            | .ok (some defSymbols) =>
              let defChain := findSymChain defSymbols d.pos []
              match defChain.getLast? with
              | some defSym =>
                if isTypeSymbol defSym.kind then
                  let targetId := getTypeUniqueId defChain d.uri
                  let newEdge : GraphEdge :=
                    { efrom := fromId, eto := targetId,
                      fromField := some child.name, etype := .composition,
                      label := if u.isWrapper then u.wrapperName else none }
                  let st4 := { st3 with edges := st3.edges ++ [newEdge] }
                  let le1 := localEdges ++ [newEdge]
                  let st5 :=
                    if st4.visited.contains targetId then st4
                    else crawlFn defChain d.uri st4
                  (st5, le1, none)
                else
                  (pushLog st3 ("    x Resolved to non-type symbol: "
                    ++ defSym.name), localEdges, none)
              | none =>
                (pushLog st3 "    x Resolved to non-type symbol: unknown",
                 localEdges, none)

/-- The `catch` of the per-field `try` (source lines 405-407): a pending
exception is logged and swallowed, the state accumulated so far is kept and
the loop moves on to the next field. -/
def catchField (child : DocumentSymbol) (r : St × List GraphEdge × Option String) :
    St × List GraphEdge :=
  match r with
  | (st1, le1, some err) =>
    (pushLog st1 ("    ! Error resolving " ++ child.name ++ ": " ++ err), le1)
  | (st1, le1, none) => (st1, le1)

/-- One field-like child of the node being freshly expanded (the loop body,
source lines 262-408 without the trailing raw-cache write): skip empty or
reserved type names, otherwise run the `try` body, catching and logging any
exception so the remaining fields still run. -/
def processField (crawlFn : List DocumentSymbol → String → St → St)
    (env : Env) (uri fromId : String) (child : DocumentSymbol)
    (acc : St × List GraphEdge) : St × List GraphEdge :=
  let typeStr := child.detail
  let u := unwrapType typeStr
  let targetName := if u.isWrapper then u.innerType.getD "" else typeStr
  if targetName = "" || RESERVED_TYPES.contains targetName then acc
  else
    let st0 := pushLog acc.1 ("  -> Resolving field " ++ child.name ++ ": "
      ++ typeStr)
    catchField child (resolveField crawlFn env uri fromId targetName child u st0 acc.2)

/-- The cache-miss / partial-hit path of `crawlRelationships` (source lines
242-413): build a fresh node, insert it into the result, then walk the
children; after every field-like child the node — carrying the local edges
discovered so far — is written to the raw cache (the source mutates one
shared node object and re-`set`s it inside the loop, so a node with no
field-like children is never written). -/
def fieldStep (crawlFn : List DocumentSymbol → String → St → St)
    (env : Env) (uri : String) (symbol : DocumentSymbol) (id : String)
    (acc : St × List GraphEdge) (child : DocumentSymbol) : St × List GraphEdge :=
  if isFieldLike child.kind then
    let acc1 := processField crawlFn env uri id child acc
    let node1 := { mkFreshNode symbol uri id with outgoingEdges := some acc1.2 }
    ({ acc1.1 with rawCache := mapSet acc1.1.rawCache id node1,
                   allNodes := mapSet acc1.1.allNodes id node1 }, acc1.2)
  else acc

def freshExpand (crawlFn : List DocumentSymbol → String → St → St)
    (env : Env) (uri : String) (symbol : DocumentSymbol) (id : String)
    (st : St) : St :=
  let node := mkFreshNode symbol uri id
  let st1 := pushLog { st with allNodes := mapSet st.allNodes id node }
    ("Analyzing " ++ symbol.name ++ "...")
  (symbol.children.foldl (fieldStep crawlFn env uri symbol id)
    (st1, ([] : List GraphEdge))).1

/-- The state right after a raw-cache hit (source lines 207-214): the id has
just been marked visited, the hit is logged, and the cached node is inserted
into the result map. -/
def rawHitState (st : St) (id : String) (cachedNode : GraphNode) : St :=
  let st1 := { st with visited := st.visited ++ [id] }
  { pushLog st1 ("Raw Cache Hit: " ++ id) with
    allNodes := mapSet (pushLog st1 ("Raw Cache Hit: " ++ id)).allNodes
      id cachedNode }

/-- `async function crawlRelationships(symbolChain, uri, allNodes, edges,
visited, logger)`.  Fuel only bounds the recursion depth; the visited set is
what bounds it in the source (each id is expanded at most once per crawl). -/
def crawlRelationships (env : Env) : Nat → List DocumentSymbol → String → St → St
  | 0, _, _, st => st
  | n + 1, chain, uri, st =>
    match chain.getLast? with
    | none => st
    | some symbol =>
      let id := getTypeUniqueId chain uri
      if st.visited.contains id then st
      else
        let st1 := { st with visited := st.visited ++ [id] }
        match listLookup st1.rawCache id with
        | some cachedNode =>
          let st2 := rawHitState st id cachedNode
          match cachedNode.outgoingEdges with
          | some outEdges =>
            if (outEdges.filter (fun e =>
                (listLookup st2.rawCache e.eto).isNone)).isEmpty then
              spliceCached n outEdges st2
            else
              freshExpand (crawlRelationships env n) env uri symbol id
                (pushLog st2 ("Raw Cache Partial" ++ " Hit: " ++ id
                  ++ " (missing dependencies, re-resolving)"))
          | none => freshExpand (crawlRelationships env n) env uri symbol id st2
        | none => freshExpand (crawlRelationships env n) env uri symbol id st1

/-- `export async function generateGraphFromNode(uri, position, logFn)`.  The
initial document-symbol lookup happens before the graph-cache check and is
not guarded by any `try`, so its failure propagates (hence the `Except`
result).  Local `nodes` / `edges` / `visited` structures are fresh per call;
the caches, call counter and log persist in the state. -/
def generateGraphFromNode (env : Env) (fuel : Nat) (uri : String) (pos : Pos)
    (st : St) : St × Except String DotResult :=
  let st0 := { st with allNodes := [], edges := [], visited := [] }
  let st1 := bump st0
  match env.documentSymbols uri with
  | .error e => (st1, .error e)
  | .ok none => (st1, .ok { nodes := st1.allNodes, edges := st1.edges })
  | .ok (some symbols) =>
    let chain := findSymChain symbols pos []
    match chain.getLast? with
    | some targetSym =>
      if isTypeSymbol targetSym.kind then
        let rootId := getTypeUniqueId chain uri
        match listLookup st1.graphCache rootId with
        | some cached =>
          (pushLog st1 ("Graph Cache Hit: " ++ rootId), .ok cached)
        | none =>
          let st2 := pushLog st1 ("Root discovered: " ++ targetSym.name
            ++ " (ID: " ++ rootId ++ ")")
          let st3 := crawlRelationships env fuel chain uri st2
          let result : DotResult := { nodes := st3.allNodes, edges := st3.edges }
          ({ st3 with graphCache := mapSet st3.graphCache rootId result },
           .ok result)
      else (st1, .ok { nodes := st1.allNodes, edges := st1.edges })
    | none => (st1, .ok { nodes := st1.allNodes, edges := st1.edges })

/-- The root identification that `generateGraphFromNode` performs before the
graph-cache check: document symbols at the uri, the symbol chain at the
position, and — when its last element is type-like — the root id. -/
def rootIdOf (env : Env) (uri : String) (pos : Pos) : Option String :=
  match env.documentSymbols uri with
  | .ok (some symbols) =>
    let chain := findSymChain symbols pos []
    match chain.getLast? with
    | some t =>
      if isTypeSymbol t.kind then some (getTypeUniqueId chain uri) else none
    | none => none
  | _ => none

/-- A composition edge as the crawler records them: from the node `fromId`
out of field `port`, to `target`, optionally labeled with a wrapper chain. -/
def compEdge (fromId target port : String) (label : Option String) : GraphEdge :=
  { efrom := fromId, eto := target, fromField := some port,
    etype := .composition, label := label }

/-- Two edges agree on the `(from, to, port)` triple of the duplicate
suppression check. -/
def sameTriple (a b : GraphEdge) : Prop :=
  a.efrom = b.efrom ∧ a.eto = b.eto ∧ a.fromField = b.fromField

instance : DecidablePred fun p : GraphEdge × GraphEdge => sameTriple p.1 p.2 :=
  fun _ => by unfold sameTriple; infer_instance

instance (a b : GraphEdge) : Decidable (sameTriple a b) := by
  unfold sameTriple; infer_instance

/-- Some edge of the list shares `e`'s `(from, to, port)` triple. -/
def tripleIn (es : List GraphEdge) (e : GraphEdge) : Prop :=
  ∃ x ∈ es, sameTriple x e

/-- No two edges of the list share a `(from, to, port)` triple. -/
def NoDupTriples (es : List GraphEdge) : Prop :=
  es.Pairwise (fun a b => ¬ sameTriple a b)

mutual

/-- All symbols of the tree whose range contains `pos` along the paths
`findSymChain` can walk; used to state "no type-kind symbol encloses the
position". -/
def collectEnclosing : List DocumentSymbol → Pos → List DocumentSymbol
  | [], _ => []
  | s :: rest, pos => collectEnclosingOne s pos ++ collectEnclosing rest pos

def collectEnclosingOne : DocumentSymbol → Pos → List DocumentSymbol
  | .mk n d k r sr cs, pos =>
    if rangeContains r pos then
      DocumentSymbol.mk n d k r sr cs :: collectEnclosing cs pos
    else []

end

/-- What every state transformer of the subsystem guarantees: the edge list
and the visited set only grow by appending (edges are never mutated or
removed), and the derived-graph cache is untouched (only
`generateGraphFromNode` and `invalidate` write it). -/
def StepOK (s t : St) : Prop :=
  (∃ l, t.edges = s.edges ++ l) ∧ (∃ l, t.visited = s.visited ++ l)
    ∧ t.graphCache = s.graphCache
    ∧ (∀ k, (listLookup s.allNodes k).isSome = true →
        (listLookup t.allNodes k).isSome = true)

/-- The crawl takes the fresh-expansion path for `id` (as opposed to the
full-hit splice): `id` misses the raw cache, or the hit has no recorded
outgoing edges, or some recorded edge target misses the raw cache (the
degraded "partial hit"). -/
def takesFreshPath (st : St) (id : String) : Prop :=
  match listLookup st.rawCache id with
  | none => True
  | some c =>
    match c.outgoingEdges with
    | none => True
    | some es => ∃ e ∈ es, listLookup st.rawCache e.eto = none

/-- Raw-cache stability relative to a key `k`: if `k` is already visited in
the pre-state then its raw-cache entry survives unchanged, and it stays
visited.  This is the invariant making the per-node raw-cache write safe:
recursive crawls only ever write ids that were unvisited at their entry. -/
def RawStable (k : String) (s t : St) : Prop :=
  (s.visited.contains k = true →
    listLookup t.rawCache k = listLookup s.rawCache k)
  ∧ (s.visited.contains k = true → t.visited.contains k = true)

/-! Concrete scenario environments used by witnesses and counterexamples. -/

/-- A file holding two struct symbols, each with one field whose type text is
the other's name: the canonical mutual-reference ("cycle safety") layout. -/
def cycleUri : String := "file:///t.rs"

def cycleSymA (nA nB : String) : DocumentSymbol :=
  .mk nA "" .structK ⟨0, 9⟩ ⟨0, 0⟩ [.mk "b" nB .fieldK ⟨2, 3⟩ ⟨2, 2⟩ []]

def cycleSymB (nA nB : String) : DocumentSymbol :=
  .mk nB "" .structK ⟨10, 19⟩ ⟨10, 10⟩ [.mk "a" nA .fieldK ⟨12, 13⟩ ⟨12, 12⟩ []]

/-- Provider for the two-type cycle: field `b` of `A` (selection offset 2)
resolves to `B` (offset 10), field `a` of `B` (offset 12) resolves back to
`A` (offset 0); everything is inside the workspace and nothing is excluded. -/
def twoCycleEnv (nA nB : String) : Env :=
  { documentSymbols := fun u =>
      if u = cycleUri then .ok (some [cycleSymA nA nB, cycleSymB nA nB])
      else .ok none
    typeDefinition := fun u p =>
      if u = cycleUri && p = 2 then .ok [⟨cycleUri, 10⟩]
      else if u = cycleUri && p = 12 then .ok [⟨cycleUri, 0⟩]
      else .ok []
    definitionProvider := fun _ _ => .ok []
    workspaceSymbols := fun _ => .ok []
    getWorkspaceFolder := fun _ => some "ws"
    asRelativePath := fun u => u
    excludePatterns := []
    minimatchFn := fun _ _ => false }

/-- One file with four structs — `R { f1: T1, f2: U }`, `T1 { u: U }`,
`U { w: W }`, `W {}` — wired so a first crawl of `T1` caches `T1` and `U`
but not the field-free `W`, and a second crawl of `R` mixes a full-hit
splice of `T1` with a degraded re-resolution of `U`. -/
def mixUri : String := "file:///m.rs"

def mixSymR : DocumentSymbol :=
  .mk "R" "" .structK ⟨0, 9⟩ ⟨0, 0⟩
    [.mk "f1" "T1" .fieldK ⟨1, 2⟩ ⟨1, 1⟩ [], .mk "f2" "U" .fieldK ⟨3, 4⟩ ⟨3, 3⟩ []]

def mixSymT1 : DocumentSymbol :=
  .mk "T1" "" .structK ⟨10, 19⟩ ⟨10, 10⟩ [.mk "u" "U" .fieldK ⟨11, 12⟩ ⟨11, 11⟩ []]

def mixSymU : DocumentSymbol :=
  .mk "U" "" .structK ⟨20, 29⟩ ⟨20, 20⟩ [.mk "w" "W" .fieldK ⟨21, 22⟩ ⟨21, 21⟩ []]

def mixSymW : DocumentSymbol :=
  .mk "W" "" .structK ⟨30, 39⟩ ⟨30, 30⟩ []

def mixEnv : Env :=
  { documentSymbols := fun u =>
      if u = mixUri then .ok (some [mixSymR, mixSymT1, mixSymU, mixSymW])
      else .ok none
    typeDefinition := fun u p =>
      if u = mixUri && p = 1 then .ok [⟨mixUri, 10⟩]
      else if u = mixUri && p = 3 then .ok [⟨mixUri, 20⟩]
      else if u = mixUri && p = 11 then .ok [⟨mixUri, 20⟩]
      else if u = mixUri && p = 21 then .ok [⟨mixUri, 30⟩]
      else .ok []
    definitionProvider := fun _ _ => .ok []
    workspaceSymbols := fun _ => .ok []
    getWorkspaceFolder := fun _ => some "ws"
    asRelativePath := fun u => u
    excludePatterns := []
    minimatchFn := fun _ _ => false }

/-- A provider every one of whose LSP commands rejects. -/
def failEnv : Env :=
  { documentSymbols := fun _ => .error "boom"
    typeDefinition := fun _ _ => .error "boom"
    definitionProvider := fun _ _ => .error "boom"
    workspaceSymbols := fun _ => .error "boom"
    getWorkspaceFolder := fun _ => some "ws"
    asRelativePath := fun u => u
    excludePatterns := []
    minimatchFn := fun _ _ => false }

/-- `X { items: Arc<Y> }` where the field definition resolves into an
external (non-workspace) location, but workspace-symbol search finds the
local `Y`: the excluded-wrapper fallback scenario. -/
def wrapUri : String := "file:///x.rs"

def wrapUriExt : String := "file:///ext/lib.rs"

def wrapSymX : DocumentSymbol :=
  .mk "X" "" .structK ⟨0, 9⟩ ⟨0, 0⟩ [.mk "items" "Arc<Y>" .fieldK ⟨1, 2⟩ ⟨1, 1⟩ []]

def wrapSymY : DocumentSymbol :=
  .mk "Y" "" .structK ⟨10, 19⟩ ⟨10, 10⟩ []

def wrapEnv : Env :=
  { documentSymbols := fun u =>
      if u = wrapUri then .ok (some [wrapSymX, wrapSymY]) else .ok none
    typeDefinition := fun u p =>
      if u = wrapUri && p = 1 then .ok [⟨wrapUriExt, 0⟩] else .ok []
    definitionProvider := fun _ _ => .ok []
    workspaceSymbols := fun n =>
      if n = "Y" then .ok [⟨"Y", .structK, ⟨wrapUri, 10⟩⟩] else .ok []
    getWorkspaceFolder := fun u => if u = wrapUriExt then none else some "ws"
    asRelativePath := fun u => u
    excludePatterns := []
    minimatchFn := fun _ _ => false }

/-- A file whose only symbol at the position is a function, not a type. -/
def funOnlyEnv : Env :=
  { documentSymbols := fun u =>
      if u = wrapUri then .ok (some [.mk "main" "" .functionK ⟨0, 9⟩ ⟨0, 0⟩ []])
      else .ok none
    typeDefinition := fun _ _ => .ok []
    definitionProvider := fun _ _ => .ok []
    workspaceSymbols := fun _ => .ok []
    getWorkspaceFolder := fun _ => some "ws"
    asRelativePath := fun u => u
    excludePatterns := []
    minimatchFn := fun _ _ => false }

/-- A struct with a single field whose type never resolves (empty provider
results): fresh expansion succeeds, discovers no edges, and caches the node
with an empty outgoing-edge list. -/
def loneUri : String := "file:///l.rs"

def loneSym : DocumentSymbol :=
  .mk "L" "" .structK ⟨0, 9⟩ ⟨0, 0⟩ [.mk "f" "Missing" .fieldK ⟨1, 2⟩ ⟨1, 1⟩ []]

def loneEnv : Env :=
  { documentSymbols := fun u =>
      if u = loneUri then .ok (some [loneSym]) else .ok none
    typeDefinition := fun _ _ => .ok []
    definitionProvider := fun _ _ => .ok []
    workspaceSymbols := fun _ => .ok []
    getWorkspaceFolder := fun _ => some "ws"
    asRelativePath := fun u => u
    excludePatterns := []
    minimatchFn := fun _ _ => false }

/-- Raw-cache entries used to exercise the full-hit and degraded-hit branches
of `crawlRelationships` directly: `P` is cached with one edge to `Q`, which
is cached and edge-free; `S` is cached with one edge to the uncached `M`. -/
def hitEdgePQ : GraphEdge :=
  { efrom := "u#P", eto := "u#Q", fromField := some "q",
    etype := .composition, label := none }

def hitNodeQ : GraphNode :=
  { id := "u#Q", label := "Q", kind := .structK, isAbstract := false,
    uri := "u", range := ⟨10, 19⟩, children := [], fields := [],
    outgoingEdges := some [] }

def hitNodeP : GraphNode :=
  { id := "u#P", label := "P", kind := .structK, isAbstract := false,
    uri := "u", range := ⟨0, 9⟩, children := [], fields := [],
    outgoingEdges := some [hitEdgePQ] }

def hitEdgeSM : GraphEdge :=
  { efrom := "u#S", eto := "u#M", fromField := some "m",
    etype := .composition, label := none }

def hitNodeS : GraphNode :=
  { id := "u#S", label := "S", kind := .structK, isAbstract := false,
    uri := "u", range := ⟨20, 29⟩, children := [], fields := [],
    outgoingEdges := some [hitEdgeSM] }

def hitSymP : DocumentSymbol := .mk "P" "" .structK ⟨0, 9⟩ ⟨0, 0⟩ []

def hitSymS : DocumentSymbol := .mk "S" "" .structK ⟨20, 29⟩ ⟨20, 20⟩ []

def hitState : St :=
  { St.empty with
    rawCache := [("u#P", hitNodeP), ("u#Q", hitNodeQ), ("u#S", hitNodeS)] }

theorem listLookup_mapSet_self {α : Type} (m : List (String × α)) (k : String) (v : α) :
    listLookup (mapSet m k v) k = some v := by
  induction m with
  | nil => simp [mapSet, listLookup]
  | cons p rest ih =>
    by_cases h : p.1 = k
    · simp [mapSet, h, listLookup]
    · simp [mapSet, h, listLookup, ih]

theorem listLookup_mapSet_ne {α : Type} (m : List (String × α)) (k k' : String) (v : α)
    (h : k' ≠ k) : listLookup (mapSet m k v) k' = listLookup m k' := by
  have hne : ¬ (k = k') := fun hh => h hh.symm
  induction m with
  | nil => simp [mapSet, listLookup, hne]
  | cons p rest ih =>
    by_cases h2 : p.1 = k
    · simp [mapSet, h2, listLookup, hne]
    · simp [mapSet, h2, listLookup, ih]

theorem contains_append_left (l t : List String) (x : String)
    (h : l.contains x = true) : (l ++ t).contains x = true := by
  rw [List.elem_iff] at *
  exact List.mem_append_left t h

theorem listLookup_isSome_mapSet {α : Type} (m : List (String × α)) (k' : String)
    (v : α) (k : String) (h : (listLookup m k).isSome = true) :
    (listLookup (mapSet m k' v) k).isSome = true := by
  by_cases hk : k = k'
  · subst hk; rw [listLookup_mapSet_self]; rfl
  · rw [listLookup_mapSet_ne _ _ _ _ hk]; exact h

theorem contains_append_self (l : List String) (x : String) :
    (l ++ [x]).contains x = true := by
  rw [List.elem_iff]
  exact List.mem_append_right _ (by simp)

theorem stepOK_refl (s : St) : StepOK s s :=
  ⟨⟨[], by simp⟩, ⟨[], by simp⟩, rfl, fun _ h => h⟩

theorem stepOK_trans {a b c : St} (h1 : StepOK a b) (h2 : StepOK b c) : StepOK a c := by
  obtain ⟨⟨l1, e1⟩, ⟨m1, v1⟩, g1, n1⟩ := h1
  obtain ⟨⟨l2, e2⟩, ⟨m2, v2⟩, g2, n2⟩ := h2
  exact ⟨⟨l1 ++ l2, by simp [e2, e1]⟩, ⟨m1 ++ m2, by simp [v2, v1]⟩, by rw [g2, g1],
    fun k h => n2 k (n1 k h)⟩

theorem stepOK_same {s t : St} (h1 : t.edges = s.edges) (h2 : t.visited = s.visited)
    (h3 : t.graphCache = s.graphCache) (h4 : t.allNodes = s.allNodes) : StepOK s t :=
  ⟨⟨[], by simp [h1]⟩, ⟨[], by simp [h2]⟩, h3, fun k h => by rw [h4]; exact h⟩

theorem stepOK_bump (s : St) : StepOK s (bump s) := stepOK_same rfl rfl rfl rfl

theorem stepOK_pushLog (s : St) (m : String) : StepOK s (pushLog s m) :=
  stepOK_same rfl rfl rfl rfl

theorem stepOK_dedupPush (s : St) (e : GraphEdge) : StepOK s (dedupPushEdge s e) := by
  unfold dedupPushEdge
  split
  · exact stepOK_refl s
  · exact ⟨⟨[e], rfl⟩, ⟨[], by simp⟩, rfl, fun _ h => h⟩

theorem foldl_rel {α β : Type _} (R : β → β → Prop)
    (htrans : ∀ a b c, R a b → R b c → R a c)
    (hrefl : ∀ b, R b b)
    (f : β → α → β) (hf : ∀ b a, R b (f b a)) :
    ∀ (l : List α) (b : β), R b (List.foldl f b l) := by
  intro l
  induction l with
  | nil => intro b; simpa using hrefl b
  | cons a l ih =>
    intro b
    simp only [List.foldl_cons]
    exact htrans _ _ _ (hf b a) (ih (f b a))

theorem foldl_inv {α β : Type _} (P : β → Prop)
    (f : β → α → β) (hf : ∀ b a, P b → P (f b a)) :
    ∀ (l : List α) (b : β), P b → P (List.foldl f b l) := by
  intro l
  induction l with
  | nil => intro b hb; simpa using hb
  | cons a l ih =>
    intro b hb
    simp only [List.foldl_cons]
    exact ih (f b a) (hf b a hb)

theorem stepOK_addVisited (s : St) (x : String) :
    StepOK s { s with visited := s.visited ++ [x] } :=
  ⟨⟨[], by simp⟩, ⟨[x], rfl⟩, rfl, fun _ h => h⟩

theorem stepOK_setNodes (s : St) (k : String) (v : GraphNode) :
    StepOK s { s with allNodes := mapSet s.allNodes k v } :=
  ⟨⟨[], by simp⟩, ⟨[], by simp⟩, rfl, fun x h => listLookup_isSome_mapSet _ _ _ _ h⟩

theorem expandFromCache_stepOK : ∀ (n : Nat) (node : GraphNode) (st : St),
    StepOK st (expandFromCache n node st) := by
  intro n
  induction n with
  | zero => intro node st; exact stepOK_refl st
  | succ n ih =>
    intro node st
    unfold expandFromCache
    cases node.outgoingEdges with
    | none => exact stepOK_refl st
    | some es =>
      simp only
      refine foldl_rel StepOK (fun _ _ _ => stepOK_trans) stepOK_refl _ ?_ es st
      intro st1 edge
      split
      · exact stepOK_dedupPush st1 edge
      · refine stepOK_trans (stepOK_dedupPush st1 edge) ?_
        refine stepOK_trans (stepOK_addVisited _ edge.eto) ?_
        split
        · exact stepOK_refl _
        · exact stepOK_trans (stepOK_setNodes _ _ _) (ih _ _)

theorem stepOK_pushEdge (s : St) (e : GraphEdge) :
    StepOK s { s with edges := s.edges ++ [e] } :=
  ⟨⟨[e], rfl⟩, ⟨[], by simp⟩, rfl, fun _ h => h⟩

theorem spliceStep_stepOK (n : Nat) (st1 : St) (edge : GraphEdge) :
    StepOK st1 (spliceStep n st1 edge) := by
  unfold spliceStep
  refine stepOK_trans (stepOK_dedupPush st1 edge) ?_
  dsimp only
  split
  · exact stepOK_refl _
  · exact stepOK_trans (stepOK_setNodes _ _ _) (expandFromCache_stepOK _ _ _)

theorem spliceCached_stepOK (n : Nat) (outEdges : List GraphEdge) (st : St) :
    StepOK st (spliceCached n outEdges st) := by
  unfold spliceCached
  exact foldl_rel StepOK (fun _ _ _ => stepOK_trans) stepOK_refl _
    (fun b a => spliceStep_stepOK n b a) outEdges st

theorem tryExpandWrapper_stepOK (crawlFn : List DocumentSymbol → String → St → St)
    (hc : ∀ ch u s, StepOK s (crawlFn ch u s))
    (env : Env) (fromId : String) (child : DocumentSymbol) (u : UnwrapResult)
    (st : St) (le : List GraphEdge) :
    StepOK st (tryExpandWrapper crawlFn env fromId child u st le).1 := by
  unfold tryExpandWrapper
  split
  case h_2 => exact stepOK_refl _
  case h_1 inner =>
    split
    · exact stepOK_refl _
    · split
      all_goals dsimp only
      · exact stepOK_trans (stepOK_pushLog _ _) (stepOK_bump _)
      · split
        · exact stepOK_trans (stepOK_pushLog _ _) (stepOK_bump _)
        · split
          · exact stepOK_trans (stepOK_trans (stepOK_pushLog _ _) (stepOK_bump _))
              (stepOK_pushLog _ _)
          · split
            · exact stepOK_trans (stepOK_trans (stepOK_pushLog _ _) (stepOK_bump _))
                (stepOK_pushLog _ _)
            · split
              · exact stepOK_trans (stepOK_trans (stepOK_trans (stepOK_pushLog _ _)
                  (stepOK_bump _)) (stepOK_pushLog _ _)) (stepOK_bump _)
              · exact stepOK_trans (stepOK_trans (stepOK_trans (stepOK_pushLog _ _)
                  (stepOK_bump _)) (stepOK_pushLog _ _)) (stepOK_bump _)
              · split
                · split
                  · split
                    · exact stepOK_trans (stepOK_trans (stepOK_trans (stepOK_trans
                        (stepOK_pushLog _ _) (stepOK_bump _)) (stepOK_pushLog _ _))
                        (stepOK_bump _)) (stepOK_pushEdge _ _)
                    · exact stepOK_trans (stepOK_trans (stepOK_trans (stepOK_trans
                        (stepOK_trans (stepOK_pushLog _ _) (stepOK_bump _))
                        (stepOK_pushLog _ _)) (stepOK_bump _)) (stepOK_pushEdge _ _))
                        (hc _ _ _)
                  · exact stepOK_trans (stepOK_trans (stepOK_trans (stepOK_pushLog _ _)
                      (stepOK_bump _)) (stepOK_pushLog _ _)) (stepOK_bump _)
                · exact stepOK_trans (stepOK_trans (stepOK_trans (stepOK_pushLog _ _)
                    (stepOK_bump _)) (stepOK_pushLog _ _)) (stepOK_bump _)


theorem resolveDefs_stepOK (env : Env) (uri : String) (p : Pos) (st : St) :
    StepOK st (resolveDefs env uri p st).1 := by
  unfold resolveDefs
  split
  · exact stepOK_bump _
  · split
    · exact stepOK_trans (stepOK_bump _) (stepOK_bump _)
    · exact stepOK_bump _

theorem resolveField_stepOK (crawlFn : List DocumentSymbol → String → St → St)
    (hc : ∀ ch u s, StepOK s (crawlFn ch u s))
    (env : Env) (uri fromId targetName : String) (child : DocumentSymbol)
    (u : UnwrapResult) (st : St) (le : List GraphEdge) :
    StepOK st (resolveField crawlFn env uri fromId targetName child u st le).1 := by
  unfold resolveField
  have hd := resolveDefs_stepOK env uri child.selectionRange.lo st
  split
  case h_1 st2 e heq => rw [heq] at hd; exact hd
  case h_2 st2 defs heq =>
    rw [heq] at hd
    split
    · exact stepOK_trans hd (stepOK_pushLog _ _)
    · split
      · exact stepOK_trans (stepOK_trans hd (stepOK_pushLog _ _))
          (tryExpandWrapper_stepOK crawlFn hc env fromId child u _ le)
      · split
        · exact stepOK_trans (stepOK_trans hd (stepOK_pushLog _ _))
            (tryExpandWrapper_stepOK crawlFn hc env fromId child u _ le)
        · split
          · exact stepOK_trans hd (stepOK_bump _)
          · exact stepOK_trans hd (stepOK_bump _)
          · dsimp only
            split
            · split
              · split
                · exact stepOK_trans (stepOK_trans hd (stepOK_bump _)) (stepOK_pushEdge _ _)
                · exact stepOK_trans (stepOK_trans (stepOK_trans hd (stepOK_bump _))
                    (stepOK_pushEdge _ _)) (hc _ _ _)
              · exact stepOK_trans (stepOK_trans hd (stepOK_bump _)) (stepOK_pushLog _ _)
            · exact stepOK_trans (stepOK_trans hd (stepOK_bump _)) (stepOK_pushLog _ _)


theorem stepOK_setRawNodes (s : St) (m : List (String × GraphNode)) (k : String)
    (v : GraphNode) :
    StepOK s { s with rawCache := m, allNodes := mapSet s.allNodes k v } :=
  ⟨⟨[], by simp⟩, ⟨[], by simp⟩, rfl, fun x h => listLookup_isSome_mapSet _ _ _ _ h⟩

theorem catchField_stepOK (child : DocumentSymbol)
    (r : St × List GraphEdge × Option String) :
    StepOK r.1 (catchField child r).1 := by
  rcases r with ⟨st1, le1, e⟩
  cases e with
  | none => exact stepOK_refl _
  | some err => exact stepOK_pushLog _ _

theorem processField_stepOK (crawlFn : List DocumentSymbol → String → St → St)
    (hc : ∀ ch u s, StepOK s (crawlFn ch u s))
    (env : Env) (uri fromId : String) (child : DocumentSymbol)
    (acc : St × List GraphEdge) :
    StepOK acc.1 (processField crawlFn env uri fromId child acc).1 := by
  unfold processField
  dsimp only
  split
  all_goals split
  all_goals first
  | exact stepOK_refl _
  | exact stepOK_trans (stepOK_pushLog _ _)
      (stepOK_trans (resolveField_stepOK crawlFn hc env uri fromId _ child _ _ _)
        (catchField_stepOK child _))

theorem fieldStep_stepOK (crawlFn : List DocumentSymbol → String → St → St)
    (hc : ∀ ch u s, StepOK s (crawlFn ch u s))
    (env : Env) (uri : String) (symbol : DocumentSymbol) (id : String)
    (acc : St × List GraphEdge) (child : DocumentSymbol) :
    StepOK acc.1 (fieldStep crawlFn env uri symbol id acc child).1 := by
  unfold fieldStep
  split
  · exact stepOK_trans (processField_stepOK crawlFn hc env uri id child acc)
      (stepOK_setRawNodes _ _ _ _)
  · exact stepOK_refl _

theorem freshExpand_stepOK (crawlFn : List DocumentSymbol → String → St → St)
    (hc : ∀ ch u s, StepOK s (crawlFn ch u s))
    (env : Env) (uri : String) (symbol : DocumentSymbol) (id : String) (st : St) :
    StepOK st (freshExpand crawlFn env uri symbol id st) := by
  unfold freshExpand
  dsimp only
  refine stepOK_trans (stepOK_trans
    (stepOK_setNodes st id (mkFreshNode symbol uri id))
    (stepOK_pushLog _ ("Analyzing " ++ symbol.name ++ "..."))) ?_
  exact foldl_rel (fun a b : St × List GraphEdge => StepOK a.1 b.1)
    (fun _ _ _ => stepOK_trans) (fun b => stepOK_refl b.1) _
    (fun b a => fieldStep_stepOK crawlFn hc env uri symbol id b a) symbol.children _

theorem crawlRelationships_stepOK (env : Env) :
    ∀ (n : Nat) (chain : List DocumentSymbol) (uri : String) (st : St),
    StepOK st (crawlRelationships env n chain uri st) := by
  intro n
  induction n with
  | zero => intro chain uri st; exact stepOK_refl st
  | succ n ih =>
    intro chain uri st
    unfold crawlRelationships
    split
    · exact stepOK_refl st
    · dsimp only
      split
      · exact stepOK_refl st
      · split
        case h_1 cachedNode heq =>
          split
          · split
            · exact stepOK_trans (stepOK_trans (stepOK_trans (stepOK_addVisited st _)
                (stepOK_pushLog _ _)) (stepOK_setNodes _ _ _)) (spliceCached_stepOK _ _ _)
            · exact stepOK_trans (stepOK_trans (stepOK_trans (stepOK_trans
                (stepOK_addVisited st _) (stepOK_pushLog _ _)) (stepOK_setNodes _ _ _))
                (stepOK_pushLog _ _)) (freshExpand_stepOK _ ih env uri _ _ _)
          · exact stepOK_trans (stepOK_trans (stepOK_trans (stepOK_addVisited st _)
              (stepOK_pushLog _ _)) (stepOK_setNodes _ _ _))
              (freshExpand_stepOK _ ih env uri _ _ _)
        case h_2 heq =>
          exact stepOK_trans (stepOK_addVisited st _) (freshExpand_stepOK _ ih env uri _ _ _)


/-- C3: after invalidate(U) no raw-cache entry whose origin uri is U remains,
and the derived-graph cache is unconditionally cleared. -/
theorem C3_thm (st : St) (u : String) :
    (∀ p ∈ (invalidateCache st u).rawCache, p.2.uri ≠ u)
  ∧ (invalidateCache st u).graphCache = [] := by
  constructor
  · intro p hp
    simp [invalidateCache, List.mem_filter] at hp
    exact hp.2
  · rfl

/-- C5: the unwrapper maps Arc<Vec<Widget>> to inner Widget with wrapper label
Arc<Vec>; Result<Widget, Error> keeps only the first comma-separated generic
argument, giving inner Widget; u32 is not a wrapper, belongs to the reserved
primitive set, and a u32 field is skipped before any resolution. -/
theorem C5_thm :
    unwrapType "Arc<Vec<Widget>>" = ⟨true, some "Widget", some "Arc<Vec>"⟩
  ∧ unwrapType "Result<Widget, Error>" = ⟨true, some "Widget", some "Result"⟩
  ∧ unwrapType "u32" = ⟨false, none, none⟩
  ∧ RESERVED_TYPES.contains "u32" = true
  ∧ ∀ (crawlFn : List DocumentSymbol → String → St → St) (env : Env)
      (uri fromId nm : String) (r1 r2 : Rng) (cs : List DocumentSymbol)
      (acc : St × List GraphEdge),
      processField crawlFn env uri fromId (.mk nm "u32" .fieldK r1 r2 cs) acc = acc := by
  refine ⟨by decide, by decide, by decide, by decide, ?_⟩
  intro crawlFn env uri fromId nm r1 r2 cs acc
  unfold processField
  dsimp only [DocumentSymbol.detail]
  rw [if_pos (by decide)]

/-- C1, counterexample to the frozen claim: the second crawl of the same root
does not perform zero provider calls — the provider-call counter strictly
increases across the second call. -/
theorem C1_cx :
    ¬ ((generateGraphFromNode (twoCycleEnv "A" "B") 10 cycleUri 0
        (generateGraphFromNode (twoCycleEnv "A" "B") 10 cycleUri 0 St.empty).1).1.calls
      = (generateGraphFromNode (twoCycleEnv "A" "B") 10 cycleUri 0 St.empty).1.calls) := by
  decide

theorem lone_node_cached :
    listLookup (generateGraphFromNode loneEnv 10 loneUri 0 St.empty).1.rawCache
      "file:///l.rs#L"
      = some { mkFreshNode loneSym loneUri "file:///l.rs#L" with outgoingEdges := some [] } := by
  decide

/-- C9, counterexample to the frozen claim: a reachable crawl result whose edge
list holds the same (from, to, port) triple twice. -/
theorem C9_cx :
    ((generateGraphFromNode mixEnv 10 mixUri 0
        (generateGraphFromNode mixEnv 10 mixUri 10 St.empty).1).2.toOption.map
      (fun r => (r.edges.filter (fun e =>
        e.efrom = "file:///m.rs#U" && e.eto = "file:///m.rs#W"
          && e.fromField == some "w")).length)) = some 2 := by
  decide

theorem crawl_graphCache (env : Env) (n : Nat) (chain : List DocumentSymbol)
    (uri : String) (st : St) :
    (crawlRelationships env n chain uri st).graphCache = st.graphCache :=
  (crawlRelationships_stepOK env n chain uri st).2.2.1

theorem gen_cache_hit (env : Env) (fuel : Nat) (uri : String) (pos : Pos) (st : St)
    (syms : List DocumentSymbol) (t : DocumentSymbol) (c : DotResult)
    (hdoc : env.documentSymbols uri = .ok (some syms))
    (hlast : (findSymChain syms pos []).getLast? = some t)
    (htype : isTypeSymbol t.kind = true)
    (hc : listLookup st.graphCache (getTypeUniqueId (findSymChain syms pos []) uri)
      = some c) :
    generateGraphFromNode env fuel uri pos st
      = (pushLog (bump { st with allNodes := [], edges := [], visited := [] })
          ("Graph Cache Hit: " ++ getTypeUniqueId (findSymChain syms pos []) uri),
         .ok c) := by
  unfold generateGraphFromNode
  rw [hdoc]
  dsimp only
  rw [hlast]
  dsimp only
  rw [if_pos htype]
  have : listLookup
      (bump { st with allNodes := [], edges := [], visited := [] }).graphCache
      (getTypeUniqueId (findSymChain syms pos []) uri) = some c := hc
  rw [this]

theorem gen_root_caches (env : Env) (fuel : Nat) (uri : String) (pos : Pos) (st : St)
    (syms : List DocumentSymbol) (t : DocumentSymbol)
    (hdoc : env.documentSymbols uri = .ok (some syms))
    (hlast : (findSymChain syms pos []).getLast? = some t)
    (htype : isTypeSymbol t.kind = true) :
    ∃ s1 r1, generateGraphFromNode env fuel uri pos st = (s1, .ok r1)
      ∧ listLookup s1.graphCache (getTypeUniqueId (findSymChain syms pos []) uri)
          = some r1 := by
  unfold generateGraphFromNode
  rw [hdoc]
  dsimp only
  rw [hlast]
  dsimp only
  rw [if_pos htype]
  split
  next cached hcc => exact ⟨_, _, rfl, hcc⟩
  next hcc =>
    refine ⟨_, _, rfl, ?_⟩
    exact listLookup_mapSet_self _ _ _

/-- C1 (corrected): crawling the same root twice with no intervening source
change yields an identical result, served from the derived-graph cache — but
the second call still performs exactly one external provider call, not zero:
the entry documentSymbols request is issued before the graph-cache lookup. -/
theorem C1_thm (env : Env) (fuel : Nat) (uri : String) (pos : Pos) (st : St)
    (h : (rootIdOf env uri pos).isSome = true) :
    ((generateGraphFromNode env fuel uri pos
        (generateGraphFromNode env fuel uri pos st).1).2
      = (generateGraphFromNode env fuel uri pos st).2)
  ∧ (generateGraphFromNode env fuel uri pos
        (generateGraphFromNode env fuel uri pos st).1).1.calls
      = (generateGraphFromNode env fuel uri pos st).1.calls + 1 := by
  unfold rootIdOf at h
  rcases hdoc : env.documentSymbols uri with e | osyms
  · rw [hdoc] at h; simp at h
  · rcases osyms with _ | syms
    · rw [hdoc] at h; simp at h
    · rw [hdoc] at h
      dsimp only at h
      rcases hlast : (findSymChain syms pos []).getLast? with _ | t
      · rw [hlast] at h; simp at h
      · rw [hlast] at h
        by_cases htype : isTypeSymbol t.kind = true
        · obtain ⟨s1, r1, hgen, hlook⟩ :=
            gen_root_caches env fuel uri pos st syms t hdoc hlast htype
          have h2 := gen_cache_hit env fuel uri pos s1 syms t r1 hdoc hlast htype hlook
          rw [hgen, h2]
          refine ⟨rfl, ?_⟩
          simp [pushLog, bump]
        · dsimp only at h; rw [if_neg htype] at h; simp at h

theorem findSymChain_enclosing :
    ∀ (syms : List DocumentSymbol) (pos : Pos) (chain : List DocumentSymbol),
    ∃ t, findSymChain syms pos chain = chain ++ t
      ∧ ∀ s ∈ t, s ∈ collectEnclosing syms pos := by
  refine findSymChain.induct
    (fun syms pos chain => ∃ t, findSymChain syms pos chain = chain ++ t
      ∧ ∀ s ∈ t, s ∈ collectEnclosing syms pos)
    (fun s pos chain => ∀ res, findSymChainOne s pos chain = some res →
      ∃ t, res = chain ++ t ∧ ∀ x ∈ t, x ∈ collectEnclosingOne s pos)
    ?_ ?_ ?_ ?_ ?_
  · intro n d k r sr cs pos chain hr
    intro newChain ih res hres
    unfold findSymChainOne at hres
    rw [if_pos hr] at hres
    dsimp only at hres
    obtain ⟨t1, ht1, hmem⟩ := ih
    rw [ht1] at hres
    have hone : collectEnclosingOne (DocumentSymbol.mk n d k r sr cs) pos
        = DocumentSymbol.mk n d k r sr cs :: collectEnclosing cs pos := by
      unfold collectEnclosingOne
      rw [if_pos hr]
    split at hres
    · have hres2 := Option.some_inj.mp hres
      subst hres2
      refine ⟨DocumentSymbol.mk n d k r sr cs :: t1, ?_, ?_⟩
      · rw [List.append_assoc]
        rfl
      intro x hx
      rw [hone]
      rcases List.mem_cons.mp hx with h | h
      · exact List.mem_cons.mpr (Or.inl h)
      · exact List.mem_cons.mpr (Or.inr (hmem x h))
    · have hres2 := Option.some_inj.mp hres
      subst hres2
      refine ⟨[DocumentSymbol.mk n d k r sr cs], rfl, ?_⟩
      intro x hx
      rw [hone]
      rcases List.mem_singleton.mp hx with h
      exact List.mem_cons.mpr (Or.inl h)
  · intro n d k r sr cs pos chain hr res hres
    unfold findSymChainOne at hres
    rw [if_neg hr] at hres
    exact absurd hres (by simp)
  · intro x chain
    exact ⟨[], by simp [findSymChain], by simp⟩
  · intro s rest pos chain res hone h2
    obtain ⟨t, ht, hmem⟩ := h2 res hone
    refine ⟨t, ?_, ?_⟩
    · unfold findSymChain
      rw [hone, ht]
    · intro x hx
      unfold collectEnclosing
      exact List.mem_append_left _ (hmem x hx)
  · intro s rest pos chain hone h2 ih
    obtain ⟨t, ht, hmem⟩ := ih
    refine ⟨t, ?_, ?_⟩
    · unfold findSymChain
      rw [hone, ht]
    · intro x hx
      unfold collectEnclosing
      exact List.mem_append_right _ (hmem x hx)

/-- C10: when no type-kind symbol encloses the given position, the call returns
an empty node set and modifies neither the raw cache nor the derived-graph
cache. -/
theorem C10_thm (env : Env) (fuel : Nat) (uri : String) (pos : Pos) (st : St)
    (h : ∀ syms, env.documentSymbols uri = .ok (some syms) →
          ∀ s ∈ collectEnclosing syms pos, isTypeSymbol s.kind = false) :
    (∀ r, (generateGraphFromNode env fuel uri pos st).2 = .ok r → r.nodes = [])
  ∧ (generateGraphFromNode env fuel uri pos st).1.rawCache = st.rawCache
  ∧ (generateGraphFromNode env fuel uri pos st).1.graphCache = st.graphCache := by
  unfold generateGraphFromNode
  rcases hdoc : env.documentSymbols uri with e | osyms
  · exact ⟨(by intro r hr; cases hr), rfl, rfl⟩
  · rcases osyms with _ | syms
    · exact ⟨(by intro r hr; cases hr; rfl), rfl, rfl⟩
    · dsimp only
      rcases hlast : (findSymChain syms pos []).getLast? with _ | t
      · exact ⟨(by intro r hr; cases hr; rfl), rfl, rfl⟩
      · have htmem : t ∈ findSymChain syms pos [] := List.mem_of_mem_getLast? hlast
        obtain ⟨tl, htl, hmem⟩ := findSymChain_enclosing syms pos []
        rw [htl] at htmem
        simp at htmem
        have hft : isTypeSymbol t.kind = false := h syms hdoc t (hmem t htmem)
        dsimp only
        rw [if_neg (by simp [hft])]
        exact ⟨(by intro r hr; cases hr; rfl), rfl, rfl⟩


theorem expandFromCache_calls : ∀ (n : Nat) (node : GraphNode) (st : St),
    (expandFromCache n node st).calls = st.calls := by
  intro n
  induction n with
  | zero => intro node st; rfl
  | succ n ih =>
    intro node st
    unfold expandFromCache
    cases node.outgoingEdges with
    | none => rfl
    | some es =>
      refine foldl_rel (fun a b : St => b.calls = a.calls)
        (fun _ _ _ h1 h2 => h2.trans h1) (fun _ => rfl) _ ?_ es st
      intro st1 edge
      dsimp only
      split
      · unfold dedupPushEdge; split <;> rfl
      · split
        · unfold dedupPushEdge; split <;> rfl
        · rw [ih]
          unfold dedupPushEdge; split <;> rfl

theorem expandFromCache_raw : ∀ (n : Nat) (node : GraphNode) (st : St),
    (expandFromCache n node st).rawCache = st.rawCache := by
  intro n
  induction n with
  | zero => intro node st; rfl
  | succ n ih =>
    intro node st
    unfold expandFromCache
    cases node.outgoingEdges with
    | none => rfl
    | some es =>
      refine foldl_rel (fun a b : St => b.rawCache = a.rawCache)
        (fun _ _ _ h1 h2 => h2.trans h1) (fun _ => rfl) _ ?_ es st
      intro st1 edge
      dsimp only
      split
      · unfold dedupPushEdge; split <;> rfl
      · split
        · unfold dedupPushEdge; split <;> rfl
        · rw [ih]
          unfold dedupPushEdge; split <;> rfl

theorem spliceStep_calls (n : Nat) (st1 : St) (edge : GraphEdge) :
    (spliceStep n st1 edge).calls = st1.calls := by
  unfold spliceStep
  dsimp only
  split
  · unfold dedupPushEdge; split <;> rfl
  · rw [expandFromCache_calls]
    unfold dedupPushEdge; split <;> rfl

theorem spliceStep_raw (n : Nat) (st1 : St) (edge : GraphEdge) :
    (spliceStep n st1 edge).rawCache = st1.rawCache := by
  unfold spliceStep
  dsimp only
  split
  · unfold dedupPushEdge; split <;> rfl
  · rw [expandFromCache_raw]
    unfold dedupPushEdge; split <;> rfl

theorem spliceCached_calls (n : Nat) (es : List GraphEdge) (st : St) :
    (spliceCached n es st).calls = st.calls := by
  unfold spliceCached
  exact foldl_rel (fun a b : St => b.calls = a.calls)
    (fun _ _ _ h1 h2 => h2.trans h1) (fun _ => rfl) _
    (fun b a => spliceStep_calls n b a) es st

theorem sameTriple_self (e : GraphEdge) : sameTriple e e := ⟨rfl, rfl, rfl⟩

theorem tripleIn_mono {s t : St} (e : GraphEdge) (h : StepOK s t)
    (hin : tripleIn s.edges e) : tripleIn t.edges e := by
  obtain ⟨⟨l, hl⟩, _, _, _⟩ := h
  obtain ⟨x, hx, hs⟩ := hin
  exact ⟨x, by rw [hl]; exact List.mem_append_left _ hx, hs⟩

theorem dedupPush_triple (st : St) (e : GraphEdge) :
    tripleIn (dedupPushEdge st e).edges e := by
  unfold dedupPushEdge
  split
  next h =>
    obtain ⟨x, hx, hp⟩ := List.any_eq_true.mp h
    refine ⟨x, hx, ?_⟩
    simp only [Bool.and_eq_true, decide_eq_true_eq, beq_iff_eq] at hp
    exact ⟨hp.1.1, hp.1.2, hp.2⟩
  next h =>
    exact ⟨e, List.mem_append_right _ (by simp), sameTriple_self e⟩

theorem spliceStep_triple (n : Nat) (st : St) (e : GraphEdge) :
    tripleIn (spliceStep n st e).edges e := by
  unfold spliceStep
  dsimp only
  split
  · exact dedupPush_triple st e
  · exact tripleIn_mono e (stepOK_trans (stepOK_setNodes _ _ _)
      (expandFromCache_stepOK _ _ _)) (dedupPush_triple st e)

theorem spliceCached_triples (n : Nat) :
    ∀ (es : List GraphEdge) (st : St) (e : GraphEdge), e ∈ es →
    tripleIn (spliceCached n es st).edges e := by
  intro es
  induction es with
  | nil => intro st e he; cases he
  | cons a rest ih =>
    intro st e he
    unfold spliceCached
    rw [List.foldl_cons]
    rcases List.mem_cons.mp he with h | h
    · subst h
      have h2 : StepOK (spliceStep n st e)
          (List.foldl (spliceStep n) (spliceStep n st e) rest) :=
        spliceCached_stepOK n rest _
      exact tripleIn_mono e h2 (spliceStep_triple n st e)
    · exact ih (spliceStep n st a) e h

theorem dedupPush_raw (st : St) (e : GraphEdge) :
    (dedupPushEdge st e).rawCache = st.rawCache := by
  unfold dedupPushEdge; split <;> rfl

theorem spliceStep_node (n : Nat) (st : St) (e : GraphEdge)
    (h : (listLookup st.rawCache e.eto).isSome = true) :
    (listLookup (spliceStep n st e).allNodes e.eto).isSome = true := by
  unfold spliceStep
  dsimp only
  split
  next hnone =>
    rw [dedupPush_raw] at hnone
    rw [hnone] at h
    cases h
  next tn hsome =>
    refine (expandFromCache_stepOK n tn _).2.2.2 e.eto ?_
    rw [listLookup_mapSet_self]
    rfl

theorem spliceCached_nodes (n : Nat) :
    ∀ (es : List GraphEdge) (st : St) (e : GraphEdge), e ∈ es →
    (listLookup st.rawCache e.eto).isSome = true →
    (listLookup (spliceCached n es st).allNodes e.eto).isSome = true := by
  intro es
  induction es with
  | nil => intro st e he; cases he
  | cons a rest ih =>
    intro st e he h
    unfold spliceCached
    rw [List.foldl_cons]
    rcases List.mem_cons.mp he with hh | hh
    · subst hh
      exact (spliceCached_stepOK n rest _).2.2.2 e.eto (spliceStep_node n st e h)
    · refine ih (spliceStep n st a) e hh ?_
      rw [spliceStep_raw]
      exact h

/-- C4: on a raw-cache hit all of whose recorded edge targets are themselves in
the raw cache (full hit), the crawler splices the cached subgraph into the
result with zero provider calls, every recorded edge and target landing in the
result; if some target is missing (partial hit), the crawler does not take the
splice path and instead re-resolves the node freshly via the provider. -/
theorem C4_thm (env : Env) (n : Nat) (chain : List DocumentSymbol) (uri : String)
    (st : St) (symbol : DocumentSymbol) (cached : GraphNode) (es : List GraphEdge)
    (hchain : chain.getLast? = some symbol)
    (hnv : st.visited.contains (getTypeUniqueId chain uri) = false)
    (hhit : listLookup st.rawCache (getTypeUniqueId chain uri) = some cached)
    (hes : cached.outgoingEdges = some es) :
    ((∀ e ∈ es, (listLookup st.rawCache e.eto).isSome = true) →
       (crawlRelationships env (n + 1) chain uri st).calls = st.calls
       ∧ ∀ e ∈ es, tripleIn (crawlRelationships env (n + 1) chain uri st).edges e
         ∧ (listLookup (crawlRelationships env (n + 1) chain uri st).allNodes
              e.eto).isSome = true)
  ∧ ((∃ e ∈ es, listLookup st.rawCache e.eto = none) →
       crawlRelationships env (n + 1) chain uri st
         = freshExpand (crawlRelationships env n) env uri symbol
             (getTypeUniqueId chain uri)
             (pushLog (rawHitState st (getTypeUniqueId chain uri) cached)
               ("Raw Cache Partial" ++ " Hit: " ++ getTypeUniqueId chain uri
                 ++ " (missing dependencies, re-resolving)"))) := by
  have hcrawl : crawlRelationships env (n + 1) chain uri st =
      (if (es.filter (fun e =>
          (listLookup (rawHitState st (getTypeUniqueId chain uri) cached).rawCache
            e.eto).isNone)).isEmpty then
        spliceCached n es (rawHitState st (getTypeUniqueId chain uri) cached)
      else
        freshExpand (crawlRelationships env n) env uri symbol
          (getTypeUniqueId chain uri)
          (pushLog (rawHitState st (getTypeUniqueId chain uri) cached)
            ("Raw Cache Partial" ++ " Hit: " ++ getTypeUniqueId chain uri
              ++ " (missing dependencies, re-resolving)"))) := by
    unfold crawlRelationships
    rw [hchain]
    dsimp only
    rw [if_neg (by rw [hnv]; simp)]
    have h1 : listLookup { st with visited :=
        st.visited ++ [getTypeUniqueId chain uri] }.rawCache
        (getTypeUniqueId chain uri) = some cached := hhit
    rw [h1]
    dsimp only
    rw [hes]
  have hraw : (rawHitState st (getTypeUniqueId chain uri) cached).rawCache
      = st.rawCache := rfl
  constructor
  · intro hfull
    have hfe : (es.filter (fun e =>
        (listLookup (rawHitState st (getTypeUniqueId chain uri) cached).rawCache
          e.eto).isNone)) = [] := by
      rw [List.filter_eq_nil_iff]
      intro e he
      rw [hraw]
      simp only [Option.isNone_iff_eq_none]
      intro hc
      have hf := hfull e he
      rw [hc] at hf
      cases hf
    rw [hcrawl, if_pos (by rw [hfe]; rfl)]
    refine ⟨?_, ?_⟩
    · rw [spliceCached_calls]
      rfl
    · intro e he
      refine ⟨spliceCached_triples n es _ e he, ?_⟩
      refine spliceCached_nodes n es _ e he ?_
      rw [hraw]
      exact hfull e he
  · intro hpart
    obtain ⟨e, he, hnone⟩ := hpart
    have hne : ¬ ((es.filter (fun x =>
        (listLookup (rawHitState st (getTypeUniqueId chain uri) cached).rawCache
          x.eto).isNone)).isEmpty = true) := by
      intro hempty
      rw [List.isEmpty_iff, List.filter_eq_nil_iff] at hempty
      refine hempty e he ?_
      rw [hraw, hnone]
      rfl
    rw [hcrawl, if_neg hne]

theorem resolveDefs_shape (env : Env) (uri : String) (p : Pos) (st : St) :
    ∃ k, (resolveDefs env uri p st).1 = { st with calls := st.calls + k } := by
  unfold resolveDefs
  dsimp only
  split
  · exact ⟨1, rfl⟩
  · split
    · exact ⟨2, rfl⟩
    · exact ⟨1, rfl⟩

theorem tryExpandWrapper_error (crawlFn : List DocumentSymbol → String → St → St)
    (env : Env) (fromId : String) (child : DocumentSymbol) (u : UnwrapResult)
    (st : St) (le : List GraphEdge) (st1 : St) (le1 : List GraphEdge) (err : String)
    (h : tryExpandWrapper crawlFn env fromId child u st le = (st1, le1, some err)) :
    st1.edges = st.edges ∧ st1.allNodes = st.allNodes ∧ st1.visited = st.visited
  ∧ st1.rawCache = st.rawCache ∧ st1.graphCache = st.graphCache ∧ le1 = le := by
  unfold tryExpandWrapper at h
  split at h
  case h_2 => exact absurd h (by simp)
  case h_1 inner =>
    split at h
    · exact absurd h (by simp)
    · split at h
      · simp only [Prod.mk.injEq] at h
        obtain ⟨h1, h2, h3⟩ := h
        subst h1; subst h2
        exact ⟨rfl, rfl, rfl, rfl, rfl, rfl⟩
      · split at h
        · exact absurd h (by simp)
        · split at h
          · exact absurd h (by simp)
          · dsimp only at h
            split at h
            · exact absurd h (by simp)
            · split at h
              · simp only [Prod.mk.injEq] at h
                obtain ⟨h1, h2, h3⟩ := h
                subst h1; subst h2
                exact ⟨rfl, rfl, rfl, rfl, rfl, rfl⟩
              · exact absurd h (by simp)
              · split at h
                · split at h
                  · exact absurd h (by simp)
                  · exact absurd h (by simp)
                · exact absurd h (by simp)

theorem resolveField_error (crawlFn : List DocumentSymbol → String → St → St)
    (env : Env) (uri fromId targetName : String) (child : DocumentSymbol)
    (u : UnwrapResult) (st : St) (le : List GraphEdge)
    (st1 : St) (le1 : List GraphEdge) (err : String)
    (h : resolveField crawlFn env uri fromId targetName child u st le
      = (st1, le1, some err)) :
    st1.edges = st.edges ∧ st1.allNodes = st.allNodes ∧ st1.visited = st.visited
  ∧ st1.rawCache = st.rawCache ∧ st1.graphCache = st.graphCache ∧ le1 = le := by
  obtain ⟨k, hk⟩ := resolveDefs_shape env uri child.selectionRange.lo st
  unfold resolveField at h
  split at h
  next st2 e heq =>
    rw [heq] at hk
    dsimp only at hk
    simp only [Prod.mk.injEq] at h
    obtain ⟨h1, h2, h3⟩ := h
    subst h1; subst h2
    rw [hk]
    exact ⟨rfl, rfl, rfl, rfl, rfl, rfl⟩
  next st2 defs heq =>
    rw [heq] at hk
    dsimp only at hk
    split at h
    · exact absurd h (by simp)
    · split at h
      · obtain ⟨e1, e2, e3, e4, e5, e6⟩ :=
          tryExpandWrapper_error _ _ _ _ _ _ _ _ _ _ h
        refine ⟨?_, ?_, ?_, ?_, ?_, e6⟩
        · rw [e1, hk]; rfl
        · rw [e2, hk]; rfl
        · rw [e3, hk]; rfl
        · rw [e4, hk]; rfl
        · rw [e5, hk]; rfl
      · split at h
        · obtain ⟨e1, e2, e3, e4, e5, e6⟩ :=
            tryExpandWrapper_error _ _ _ _ _ _ _ _ _ _ h
          refine ⟨?_, ?_, ?_, ?_, ?_, e6⟩
          · rw [e1, hk]; rfl
          · rw [e2, hk]; rfl
          · rw [e3, hk]; rfl
          · rw [e4, hk]; rfl
          · rw [e5, hk]; rfl
        · split at h
          · simp only [Prod.mk.injEq] at h
            obtain ⟨h1, h2, h3⟩ := h
            subst h1; subst h2
            rw [hk]
            exact ⟨rfl, rfl, rfl, rfl, rfl, rfl⟩
          · exact absurd h (by simp)
          · dsimp only at h
            split at h
            · split at h
              · exact absurd h (by simp)
              · exact absurd h (by simp)
            · exact absurd h (by simp)

theorem spliceCached_raw (n : Nat) (es : List GraphEdge) (st : St) :
    (spliceCached n es st).rawCache = st.rawCache := by
  unfold spliceCached
  exact foldl_rel (fun a b : St => b.rawCache = a.rawCache)
    (fun _ _ _ h1 h2 => h2.trans h1) (fun _ => rfl) _
    (fun b a => spliceStep_raw n b a) es st

theorem tryExpandWrapper_rawPres (crawlFn : List DocumentSymbol → String → St → St)
    (hc : ∀ ch u2 s k, s.visited.contains k = true →
      listLookup (crawlFn ch u2 s).rawCache k = listLookup s.rawCache k)
    (env : Env) (fromId : String) (child : DocumentSymbol) (u : UnwrapResult)
    (st : St) (le : List GraphEdge) (k : String)
    (hv : st.visited.contains k = true) :
    listLookup (tryExpandWrapper crawlFn env fromId child u st le).1.rawCache k
      = listLookup st.rawCache k := by
  unfold tryExpandWrapper
  split
  case h_2 => rfl
  case h_1 inner =>
    split
    · rfl
    · split
      · rfl
      · split
        · rfl
        · split
          · rfl
          · dsimp only
            split
            · rfl
            · split
              · rfl
              · rfl
              · split
                · split
                  · split
                    · rfl
                    · exact hc _ _ _ k hv
                  · rfl
                · rfl

theorem resolveField_rawPres (crawlFn : List DocumentSymbol → String → St → St)
    (hc : ∀ ch u2 s k, s.visited.contains k = true →
      listLookup (crawlFn ch u2 s).rawCache k = listLookup s.rawCache k)
    (env : Env) (uri fromId targetName : String) (child : DocumentSymbol)
    (u : UnwrapResult) (st : St) (le : List GraphEdge) (k : String)
    (hv : st.visited.contains k = true) :
    listLookup (resolveField crawlFn env uri fromId targetName child u st le).1.rawCache k
      = listLookup st.rawCache k := by
  obtain ⟨kk, hk⟩ := resolveDefs_shape env uri child.selectionRange.lo st
  unfold resolveField
  split
  next st2 e heq =>
    rw [heq] at hk
    dsimp only at hk
    dsimp only
    rw [hk]
  next st2 defs heq =>
    rw [heq] at hk
    dsimp only at hk
    subst hk
    split
    · rfl
    · split
      · exact tryExpandWrapper_rawPres crawlFn hc env fromId child u _ le k hv
      · split
        · exact tryExpandWrapper_rawPres crawlFn hc env fromId child u _ le k hv
        · split
          · rfl
          · rfl
          · dsimp only
            split
            · split
              · split
                · rfl
                · exact hc _ _ _ k hv
              · rfl
            · rfl

theorem catchField_raw (child : DocumentSymbol) (r : St × List GraphEdge × Option String) :
    (catchField child r).1.rawCache = r.1.rawCache := by
  rcases r with ⟨st1, le1, e⟩
  cases e <;> rfl

theorem processField_rawPres (crawlFn : List DocumentSymbol → String → St → St)
    (hc : ∀ ch u2 s k, s.visited.contains k = true →
      listLookup (crawlFn ch u2 s).rawCache k = listLookup s.rawCache k)
    (env : Env) (uri fromId : String) (child : DocumentSymbol)
    (acc : St × List GraphEdge) (k : String)
    (hv : acc.1.visited.contains k = true) :
    listLookup (processField crawlFn env uri fromId child acc).1.rawCache k
      = listLookup acc.1.rawCache k := by
  unfold processField
  dsimp only
  split
  all_goals split
  all_goals try rfl
  all_goals rw [catchField_raw]
  all_goals exact resolveField_rawPres crawlFn hc env uri fromId _ child _ _ acc.2 k hv

theorem contains_of_stepOK {s t : St} (h : StepOK s t) (k : String)
    (hv : s.visited.contains k = true) : t.visited.contains k = true := by
  obtain ⟨_, ⟨l, hl⟩, _, _⟩ := h
  rw [hl]
  exact contains_append_left _ _ _ hv

theorem freshExpand_rawPres (crawlFn : List DocumentSymbol → String → St → St)
    (hcStep : ∀ ch u2 s, StepOK s (crawlFn ch u2 s))
    (hc : ∀ ch u2 s k, s.visited.contains k = true →
      listLookup (crawlFn ch u2 s).rawCache k = listLookup s.rawCache k)
    (env : Env) (uri : String) (symbol : DocumentSymbol) (id : String) (st : St)
    (k : String) (hkid : k ≠ id) (hv : st.visited.contains k = true) :
    listLookup (freshExpand crawlFn env uri symbol id st).rawCache k
      = listLookup st.rawCache k := by
  unfold freshExpand
  dsimp only
  have hfold := foldl_inv (fun acc : St × List GraphEdge =>
      acc.1.visited.contains k = true
      ∧ listLookup acc.1.rawCache k = listLookup st.rawCache k)
    (fieldStep crawlFn env uri symbol id)
    ?_ symbol.children
    (pushLog { st with allNodes := mapSet st.allNodes id (mkFreshNode symbol uri id) }
      ("Analyzing " ++ symbol.name ++ "..."), ([] : List GraphEdge))
    ⟨hv, rfl⟩
  · exact hfold.2
  · intro b a hb
    unfold fieldStep
    split
    · constructor
      · exact contains_of_stepOK
          (stepOK_trans (processField_stepOK crawlFn hcStep env uri id a b)
            (stepOK_setRawNodes _ _ _ _)) k hb.1
      · have h1 := processField_rawPres crawlFn hc env uri id a b k hb.1
        dsimp only
        rw [listLookup_mapSet_ne _ _ _ _ hkid, h1, hb.2]
    · exact hb

theorem crawl_rawPres (env : Env) :
    ∀ (n : Nat) (chain : List DocumentSymbol) (uri : String) (st : St) (k : String),
    st.visited.contains k = true →
    listLookup (crawlRelationships env n chain uri st).rawCache k
      = listLookup st.rawCache k := by
  intro n
  induction n with
  | zero => intro chain uri st k hv; rfl
  | succ n ih =>
    intro chain uri st k hv
    unfold crawlRelationships
    split
    · rfl
    · dsimp only
      split
      · rfl
      · next hnv =>
        have hkid : k ≠ getTypeUniqueId chain uri := by
          intro hkk
          rw [hkk] at hv
          rw [hv] at hnv
          exact hnv rfl
        have hv1 : ({ st with visited :=
            st.visited ++ [getTypeUniqueId chain uri] } : St).visited.contains k
            = true := contains_append_left _ _ _ hv
        split
        next cachedNode heq =>
          split
          · split
            · rw [spliceCached_raw]
              rfl
            · rw [freshExpand_rawPres (crawlRelationships env n)
                (fun ch u2 s => crawlRelationships_stepOK env n ch u2 s)
                (fun ch u2 s k2 hv2 => ih ch u2 s k2 hv2) env uri _ _ _ k hkid
                (contains_append_left _ _ _ hv)]
              rfl
          · rw [freshExpand_rawPres (crawlRelationships env n)
              (fun ch u2 s => crawlRelationships_stepOK env n ch u2 s)
              (fun ch u2 s k2 hv2 => ih ch u2 s k2 hv2) env uri _ _ _ k hkid
              (contains_append_left _ _ _ hv)]
            rfl
        next heq =>
          rw [freshExpand_rawPres (crawlRelationships env n)
            (fun ch u2 s => crawlRelationships_stepOK env n ch u2 s)
            (fun ch u2 s k2 hv2 => ih ch u2 s k2 hv2) env uri _ _ _ k hkid
            (contains_append_left _ _ _ hv)]

theorem mem_edges_of_stepOK {s t : St} {e : GraphEdge} (h : StepOK s t)
    (hm : e ∈ s.edges) : e ∈ t.edges := by
  obtain ⟨⟨l, hl⟩, _, _, _⟩ := h
  rw [hl]
  exact List.mem_append_left _ hm

theorem tryExpandWrapper_local (crawlFn : List DocumentSymbol → String → St → St)
    (hcStep : ∀ ch u2 s, StepOK s (crawlFn ch u2 s))
    (env : Env) (fromId : String) (child : DocumentSymbol) (u : UnwrapResult)
    (st : St) (le : List GraphEdge) :
    ∃ t, (tryExpandWrapper crawlFn env fromId child u st le).2.1 = le ++ t
    ∧ ∀ e ∈ t, e.efrom = fromId
      ∧ e ∈ (tryExpandWrapper crawlFn env fromId child u st le).1.edges := by
  unfold tryExpandWrapper
  split
  case h_2 => exact ⟨[], by simp, by simp⟩
  case h_1 inner =>
    split
    · exact ⟨[], by simp, by simp⟩
    · split
      · exact ⟨[], by simp, by simp⟩
      · split
        · exact ⟨[], by simp, by simp⟩
        · split
          · exact ⟨[], by simp, by simp⟩
          · dsimp only
            split
            · exact ⟨[], by simp, by simp⟩
            · split
              · exact ⟨[], by simp, by simp⟩
              · exact ⟨[], by simp, by simp⟩
              · split
                · split
                  · dsimp only
                    refine ⟨[_], rfl, ?_⟩
                    intro e he
                    rw [List.mem_singleton] at he
                    subst he
                    refine ⟨rfl, ?_⟩
                    split
                    · exact List.mem_append_right _ (by simp)
                    · exact mem_edges_of_stepOK (hcStep _ _ _)
                        (List.mem_append_right _ (by simp))
                  · exact ⟨[], by simp, by simp⟩
                · exact ⟨[], by simp, by simp⟩

theorem resolveField_local (crawlFn : List DocumentSymbol → String → St → St)
    (hcStep : ∀ ch u2 s, StepOK s (crawlFn ch u2 s))
    (env : Env) (uri fromId targetName : String) (child : DocumentSymbol)
    (u : UnwrapResult) (st : St) (le : List GraphEdge) :
    ∃ t, (resolveField crawlFn env uri fromId targetName child u st le).2.1 = le ++ t
    ∧ ∀ e ∈ t, e.efrom = fromId
      ∧ e ∈ (resolveField crawlFn env uri fromId targetName child u st le).1.edges := by
  unfold resolveField
  split
  next st2 e heq => exact ⟨[], by simp, by simp⟩
  next st2 defs heq =>
    split
    · exact ⟨[], by simp, by simp⟩
    · split
      · exact tryExpandWrapper_local crawlFn hcStep env fromId child u _ le
      · split
        · exact tryExpandWrapper_local crawlFn hcStep env fromId child u _ le
        · split
          · exact ⟨[], by simp, by simp⟩
          · exact ⟨[], by simp, by simp⟩
          · dsimp only
            split
            · split
              · dsimp only
                refine ⟨[_], rfl, ?_⟩
                intro e he
                rw [List.mem_singleton] at he
                subst he
                refine ⟨rfl, ?_⟩
                split
                · exact List.mem_append_right _ (by simp)
                · exact mem_edges_of_stepOK (hcStep _ _ _)
                    (List.mem_append_right _ (by simp))
              · exact ⟨[], by simp, by simp⟩
            · exact ⟨[], by simp, by simp⟩

theorem catchField_snd (child : DocumentSymbol) (r : St × List GraphEdge × Option String) :
    (catchField child r).2 = r.2.1 := by
  rcases r with ⟨st1, le1, e⟩
  cases e <;> rfl

theorem catchField_edges (child : DocumentSymbol) (r : St × List GraphEdge × Option String) :
    (catchField child r).1.edges = r.1.edges := by
  rcases r with ⟨st1, le1, e⟩
  cases e <;> rfl

theorem processField_local (crawlFn : List DocumentSymbol → String → St → St)
    (hcStep : ∀ ch u2 s, StepOK s (crawlFn ch u2 s))
    (env : Env) (uri fromId : String) (child : DocumentSymbol)
    (acc : St × List GraphEdge) :
    ∃ t, (processField crawlFn env uri fromId child acc).2 = acc.2 ++ t
    ∧ ∀ e ∈ t, e.efrom = fromId
      ∧ e ∈ (processField crawlFn env uri fromId child acc).1.edges := by
  unfold processField
  dsimp only
  split
  all_goals split
  · exact ⟨[], by simp, by simp⟩
  · rw [catchField_snd]
    obtain ⟨t, ht, hmem⟩ := resolveField_local crawlFn hcStep env uri fromId _
      child _ _ acc.2
    refine ⟨t, ht, ?_⟩
    intro e he
    refine ⟨(hmem e he).1, ?_⟩
    rw [catchField_edges]
    exact (hmem e he).2
  · exact ⟨[], by simp, by simp⟩
  · rw [catchField_snd]
    obtain ⟨t, ht, hmem⟩ := resolveField_local crawlFn hcStep env uri fromId _
      child _ _ acc.2
    refine ⟨t, ht, ?_⟩
    intro e he
    refine ⟨(hmem e he).1, ?_⟩
    rw [catchField_edges]
    exact (hmem e he).2


theorem foldFields_spec (crawlFn : List DocumentSymbol → String → St → St)
    (hcStep : ∀ ch u2 s, StepOK s (crawlFn ch u2 s))
    (env : Env) (uri : String) (symbol : DocumentSymbol) (id : String) :
    ∀ (children : List DocumentSymbol) (acc : St × List GraphEdge),
    acc.1.visited.contains id = true →
    (∀ e ∈ acc.2, e.efrom = id ∧ e ∈ acc.1.edges) →
    ((children.any (fun c => isFieldLike c.kind) = true →
      listLookup (children.foldl (fieldStep crawlFn env uri symbol id) acc).1.rawCache id
        = some { mkFreshNode symbol uri id with
            outgoingEdges :=
              some (children.foldl (fieldStep crawlFn env uri symbol id) acc).2 }
      ∧ ∀ e ∈ (children.foldl (fieldStep crawlFn env uri symbol id) acc).2,
          e.efrom = id
          ∧ e ∈ (children.foldl (fieldStep crawlFn env uri symbol id) acc).1.edges)
    ∧ (children.any (fun c => isFieldLike c.kind) = false →
        children.foldl (fieldStep crawlFn env uri symbol id) acc = acc)) := by
  intro children
  induction children with
  | nil =>
    intro acc hv hloc
    refine ⟨?_, ?_⟩
    · intro hany; cases hany
    · intro _; rfl
  | cons c rest ih =>
    intro acc hv hloc
    by_cases hf : isFieldLike c.kind = true
    · simp only [List.foldl_cons, List.any_cons, hf, Bool.true_or]
      have hstepeq : fieldStep crawlFn env uri symbol id acc c
          = ({ (processField crawlFn env uri id c acc).1 with
              rawCache := mapSet (processField crawlFn env uri id c acc).1.rawCache id
                { mkFreshNode symbol uri id with
                  outgoingEdges := some (processField crawlFn env uri id c acc).2 },
              allNodes := mapSet (processField crawlFn env uri id c acc).1.allNodes id
                { mkFreshNode symbol uri id with
                  outgoingEdges := some (processField crawlFn env uri id c acc).2 } },
            (processField crawlFn env uri id c acc).2) := by
        unfold fieldStep
        rw [if_pos hf]
      have hstep1 : StepOK acc.1 (fieldStep crawlFn env uri symbol id acc c).1 :=
        fieldStep_stepOK crawlFn hcStep env uri symbol id acc c
      have hv2 : (fieldStep crawlFn env uri symbol id acc c).1.visited.contains id
          = true := contains_of_stepOK hstep1 id hv
      have hloc2 : ∀ e ∈ (fieldStep crawlFn env uri symbol id acc c).2,
          e.efrom = id ∧ e ∈ (fieldStep crawlFn env uri symbol id acc c).1.edges := by
        obtain ⟨t, ht, hmem⟩ := processField_local crawlFn hcStep env uri id c acc
        intro e he
        rw [hstepeq] at he
        dsimp only at he
        rw [ht] at he
        rcases List.mem_append.mp he with hh | hh
        · refine ⟨(hloc e hh).1, ?_⟩
          rw [hstepeq]
          dsimp only
          exact mem_edges_of_stepOK (processField_stepOK crawlFn hcStep env uri id c acc)
            (hloc e hh).2
        · refine ⟨(hmem e hh).1, ?_⟩
          rw [hstepeq]
          dsimp only
          exact (hmem e hh).2
      have hIH := ih (fieldStep crawlFn env uri symbol id acc c) hv2 hloc2
      refine ⟨?_, ?_⟩
      · intro _
        by_cases hrest : rest.any (fun c => isFieldLike c.kind) = true
        · exact hIH.1 hrest
        · have heq := hIH.2 (by rw [Bool.eq_false_iff]; exact hrest)
          rw [heq]
          refine ⟨?_, hloc2⟩
          rw [hstepeq]
          dsimp only
          exact listLookup_mapSet_self _ _ _
      · intro hfalse
        simp at hfalse
    · have hf2 : isFieldLike c.kind = false := by rw [Bool.eq_false_iff]; exact hf
      have hstepeq : fieldStep crawlFn env uri symbol id acc c = acc := by
        unfold fieldStep
        rw [if_neg hf]
      simp only [List.foldl_cons, List.any_cons, hf2, Bool.false_or, hstepeq]
      exact ih acc hv hloc

theorem freshExpand_caches (crawlFn : List DocumentSymbol → String → St → St)
    (hcStep : ∀ ch u2 s, StepOK s (crawlFn ch u2 s))
    (env : Env) (uri : String) (symbol : DocumentSymbol) (id : String) (st : St)
    (hv : st.visited.contains id = true)
    (hfields : symbol.children.any (fun c => isFieldLike c.kind) = true) :
    ∃ L, listLookup (freshExpand crawlFn env uri symbol id st).rawCache id
      = some { mkFreshNode symbol uri id with outgoingEdges := some L }
    ∧ ∀ e ∈ L, e.efrom = id
      ∧ e ∈ (freshExpand crawlFn env uri symbol id st).edges := by
  unfold freshExpand
  dsimp only
  have h := (foldFields_spec crawlFn hcStep env uri symbol id symbol.children
    (pushLog { st with allNodes := mapSet st.allNodes id (mkFreshNode symbol uri id) }
      ("Analyzing " ++ symbol.name ++ "..."), ([] : List GraphEdge))
    hv (by intro e he; cases he)).1 hfields
  exact ⟨_, h.1, h.2⟩

/-- C7 (corrected): a freshly expanded node with at least one field-like child
is persisted in the raw cache under its id together with exactly its directly
discovered outgoing edges; but the raw-cache write sits inside the per-field
loop, so a node without field-like children is never cached at all. -/
theorem C7_thm (env : Env) (n : Nat) (chain : List DocumentSymbol)
    (uri : String) (st : St) (symbol : DocumentSymbol)
    (hchain : chain.getLast? = some symbol)
    (hnv : st.visited.contains (getTypeUniqueId chain uri) = false)
    (hfresh : takesFreshPath st (getTypeUniqueId chain uri))
    (hfields : symbol.children.any (fun c => isFieldLike c.kind) = true) :
    ∃ L, listLookup (crawlRelationships env (n + 1) chain uri st).rawCache
        (getTypeUniqueId chain uri)
      = some { mkFreshNode symbol uri (getTypeUniqueId chain uri) with
          outgoingEdges := some L }
    ∧ ∀ e ∈ L, e.efrom = getTypeUniqueId chain uri
      ∧ e ∈ (crawlRelationships env (n + 1) chain uri st).edges := by
  have hcStep : ∀ ch u2 s, StepOK s (crawlRelationships env n ch u2 s) :=
    fun ch u2 s => crawlRelationships_stepOK env n ch u2 s
  unfold crawlRelationships
  rw [hchain]
  dsimp only
  rw [if_neg (by rw [hnv]; simp)]
  unfold takesFreshPath at hfresh
  split
  next cachedNode heq =>
    have heq0 : listLookup st.rawCache (getTypeUniqueId chain uri) = some cachedNode := heq
    rw [heq0] at hfresh
    dsimp only at hfresh
    split
    next outEdges heqo =>
      rw [heqo] at hfresh
      dsimp only at hfresh
      obtain ⟨e, he, hnone⟩ := hfresh
      have hne : ¬ ((outEdges.filter (fun x =>
          (listLookup (rawHitState st (getTypeUniqueId chain uri) cachedNode).rawCache
            x.eto).isNone)).isEmpty = true) := by
        intro hempty
        rw [List.isEmpty_iff, List.filter_eq_nil_iff] at hempty
        refine hempty e he ?_
        have : (rawHitState st (getTypeUniqueId chain uri) cachedNode).rawCache
            = st.rawCache := rfl
        rw [this, hnone]
        rfl
      rw [if_neg hne]
      exact freshExpand_caches (crawlRelationships env n) hcStep env uri symbol _ _
        (contains_append_self _ _) hfields
    next heqo =>
      exact freshExpand_caches (crawlRelationships env n) hcStep env uri symbol _ _
        (contains_append_self _ _) hfields
  next heq =>
    exact freshExpand_caches (crawlRelationships env n) hcStep env uri symbol _ _
      (contains_append_self _ _) hfields

theorem string_append_ne (s : String) {a b : String} (h : a ≠ b) : s ++ a ≠ s ++ b := by
  intro hc
  apply h
  have h2 := congrArg String.data hc
  simp only [String.data_append] at h2
  exact String.ext (List.append_cancel_left h2)

set_option maxHeartbeats 1000000 in
/-- C2: two non-reserved, non-wrapper types that each hold one field referencing
the other: crawling from A terminates and the result holds exactly the two
nodes A and B and exactly the two edges A to B and B to A — the back edge into
the already-visited A is still recorded, and no fields are expanded twice. -/
theorem C2_thm (nA nB : String) (hne : nA ≠ nB)
    (hwA : unwrapType nA = ⟨false, none, none⟩)
    (hwB : unwrapType nB = ⟨false, none, none⟩)
    (hrA : nA ∉ RESERVED_TYPES)
    (hrB : nB ∉ RESERVED_TYPES)
    (hA : ¬ nA = "") (hB : ¬ nB = "") :
    ∀ k : Nat,
    ∃ g, (generateGraphFromNode (twoCycleEnv nA nB) (k + 2) cycleUri 0 St.empty).2 = .ok g
      ∧ g.nodes.map Prod.fst = [cycleUri ++ "#" ++ nA, cycleUri ++ "#" ++ nB]
      ∧ g.edges.map (fun e => (e.efrom, e.eto)) =
          [(cycleUri ++ "#" ++ nA, cycleUri ++ "#" ++ nB),
           (cycleUri ++ "#" ++ nB, cycleUri ++ "#" ++ nA)] := by
  intro k
  have hid : ¬ ("file:///t.rs#" ++ nA = "file:///t.rs#" ++ nB) :=
    string_append_ne _ hne
  have hid2 : ¬ ("file:///t.rs#" ++ nB = "file:///t.rs#" ++ nA) :=
    string_append_ne _ (Ne.symm hne)
  refine ⟨_, rfl, ?_, ?_⟩ <;>
  simp [generateGraphFromNode, twoCycleEnv, cycleSymA, cycleSymB, findSymChain,
    findSymChainOne, rangeContains, isTypeSymbol, getTypeUniqueId, joinHash,
    DocumentSymbol.name, DocumentSymbol.kind, DocumentSymbol.children,
    DocumentSymbol.detail, DocumentSymbol.selectionRange, crawlRelationships,
    listLookup, St.empty, bump, pushLog, freshExpand, fieldStep, processField,
    resolveField, resolveDefs, tryExpandWrapper, catchField, isFieldLike,
    mkFreshNode, mapSet, isExcluded, cycleUri, hwA, hwB, hrA, hrB, hA, hB,
    hid, hid2]

theorem resolveDefs_hit (env : Env) (uri : String) (p : Pos) (st : St)
    (d : Location) (ds : List Location)
    (hdef : env.typeDefinition uri p = .ok (d :: ds)) :
    resolveDefs env uri p st = (bump st, .ok (d :: ds)) := by
  unfold resolveDefs
  rw [hdef]
  rfl

theorem tryExpandWrapper_fallback (crawlFn : List DocumentSymbol → String → St → St)
    (hcStep : ∀ ch u2 s, StepOK s (crawlFn ch u2 s))
    (env : Env) (fromId : String) (child : DocumentSymbol) (u : UnwrapResult)
    (st : St) (le : List GraphEdge) (inner : String) (rs : List SymbolInformation)
    (m : SymbolInformation) (syms2 : List DocumentSymbol) (innerSym : DocumentSymbol)
    (hw : u.isWrapper = true) (hi : u.innerType = some inner) (hne : ¬ inner = "")
    (hws : env.workspaceSymbols inner = .ok rs) (hrs : ¬ rs = [])
    (hfind : rs.find? (fun s => s.name = inner && isTypeSymbol s.kind) = some m)
    (hfolder : (env.getWorkspaceFolder m.loc.uri).isSome = true)
    (hexc : isExcluded env m.loc.uri = false)
    (hdocs : env.documentSymbols m.loc.uri = .ok (some syms2))
    (hlast : (findSymChain syms2 m.loc.pos []).getLast? = some innerSym)
    (htype : isTypeSymbol innerSym.kind = true) :
    ∃ st1, tryExpandWrapper crawlFn env fromId child u st le
        = (st1, le ++ [compEdge fromId
            (getTypeUniqueId (findSymChain syms2 m.loc.pos []) m.loc.uri)
            child.name u.wrapperName], none)
      ∧ ∃ t, st1.edges = st.edges ++ compEdge fromId
            (getTypeUniqueId (findSymChain syms2 m.loc.pos []) m.loc.uri)
            child.name u.wrapperName :: t := by
  unfold tryExpandWrapper
  rw [hw, hi]
  dsimp only
  rw [if_neg hne, hws]
  dsimp only
  rw [if_neg (by rw [List.isEmpty_iff]; exact hrs), hfind]
  dsimp only
  have hnone : (env.getWorkspaceFolder m.loc.uri).isNone = false := by
    obtain ⟨a, ha⟩ := Option.isSome_iff_exists.mp hfolder
    rw [ha]
    rfl
  rw [hnone, hexc]
  rw [if_neg (by simp), hdocs]
  dsimp only
  rw [hlast]
  dsimp only
  rw [if_pos htype]
  split
  · exact ⟨_, rfl, [], rfl⟩
  · refine ⟨_, rfl, ?_⟩
    obtain ⟨⟨l, hl⟩, _, _, _⟩ := hcStep (findSymChain syms2 m.loc.pos []) m.loc.uri _
    rw [hl]
    refine ⟨l, ?_⟩
    dsimp only
    rw [List.append_assoc]
    rfl

theorem tryExpandWrapper_notWrapper (crawlFn : List DocumentSymbol → String → St → St)
    (env : Env) (fromId : String) (child : DocumentSymbol) (u : UnwrapResult)
    (st : St) (le : List GraphEdge) (h : u.isWrapper = false) :
    tryExpandWrapper crawlFn env fromId child u st le = (st, le, none) := by
  rcases hit : u.innerType with _ | i <;> simp [tryExpandWrapper, h, hit]

/-- C8: a field whose definition resolves outside the workspace or into an
excluded file records no edge when its type is not a recognized wrapper; when
it is a wrapper, workspace symbols are searched by the unwrapped payload name,
filtered to exact-name type-like matches, and the first match becomes the edge
target. -/
theorem C8_thm (crawlFn : List DocumentSymbol → String → St → St)
    (hcStep : ∀ ch u2 s, StepOK s (crawlFn ch u2 s))
    (env : Env) (uri fromId targetName : String) (child : DocumentSymbol)
    (u : UnwrapResult) (st : St) (le : List GraphEdge)
    (d : Location) (ds : List Location)
    (hdef : env.typeDefinition uri child.selectionRange.lo = .ok (d :: ds))
    (hext : env.getWorkspaceFolder d.uri = none ∨ isExcluded env d.uri = true) :
    (u.isWrapper = false →
      ∃ st1, resolveField crawlFn env uri fromId targetName child u st le
          = (st1, le, none)
        ∧ st1.edges = st.edges ∧ st1.allNodes = st.allNodes
        ∧ st1.visited = st.visited ∧ st1.rawCache = st.rawCache)
  ∧ (∀ inner rs m syms2 innerSym,
      u.isWrapper = true → u.innerType = some inner → ¬ inner = "" →
      env.workspaceSymbols inner = .ok rs → ¬ rs = [] →
      rs.find? (fun s => s.name = inner && isTypeSymbol s.kind) = some m →
      (env.getWorkspaceFolder m.loc.uri).isSome = true →
      isExcluded env m.loc.uri = false →
      env.documentSymbols m.loc.uri = .ok (some syms2) →
      (findSymChain syms2 m.loc.pos []).getLast? = some innerSym →
      isTypeSymbol innerSym.kind = true →
      ∃ st1, resolveField crawlFn env uri fromId targetName child u st le
          = (st1, le ++ [compEdge fromId
              (getTypeUniqueId (findSymChain syms2 m.loc.pos []) m.loc.uri)
              child.name u.wrapperName], none)
        ∧ ∃ t, st1.edges = st.edges ++ compEdge fromId
              (getTypeUniqueId (findSymChain syms2 m.loc.pos []) m.loc.uri)
              child.name u.wrapperName :: t) := by
  constructor
  · intro hw
    unfold resolveField
    rw [resolveDefs_hit env uri child.selectionRange.lo st d ds hdef]
    dsimp only
    rcases hfolder : env.getWorkspaceFolder d.uri with _ | f
    · rw [tryExpandWrapper_notWrapper crawlFn env fromId child u _ le hw]
      exact ⟨_, rfl, rfl, rfl, rfl, rfl⟩
    · have hexc : isExcluded env d.uri = true := by
        rcases hext with h | h
        · rw [hfolder] at h; cases h
        · exact h
      dsimp only
      rw [if_pos hexc]
      rw [tryExpandWrapper_notWrapper crawlFn env fromId child u _ le hw]
      exact ⟨_, rfl, rfl, rfl, rfl, rfl⟩
  · intro inner rs m syms2 innerSym hw hi hine hws hrs hfind hfolder2 hexc2 hdocs
      hlast htype
    unfold resolveField
    rw [resolveDefs_hit env uri child.selectionRange.lo st d ds hdef]
    dsimp only
    rcases hfolder : env.getWorkspaceFolder d.uri with _ | f
    · obtain ⟨st1, heq, t, ht⟩ := tryExpandWrapper_fallback crawlFn hcStep env fromId
        child u (pushLog (bump st) ("    - Skipping external definition: " ++ d.uri))
        le inner rs m syms2 innerSym hw hi hine hws hrs hfind hfolder2 hexc2 hdocs
        hlast htype
      rw [heq]
      exact ⟨st1, rfl, t, ht⟩
    · have hexc : isExcluded env d.uri = true := by
        rcases hext with h | h
        · rw [hfolder] at h; cases h
        · exact h
      dsimp only
      rw [if_pos hexc]
      obtain ⟨st1, heq, t, ht⟩ := tryExpandWrapper_fallback crawlFn hcStep env fromId
        child u (pushLog (bump st) ("    - Skipping excluded file: "
          ++ env.asRelativePath d.uri))
        le inner rs m syms2 innerSym hw hi hine hws hrs hfind hfolder2 hexc2 hdocs
        hlast htype
      rw [heq]
      exact ⟨st1, rfl, t, ht⟩

theorem dedupPush_noDup (st : St) (e : GraphEdge)
    (h : NoDupTriples st.edges) : NoDupTriples (dedupPushEdge st e).edges := by
  unfold dedupPushEdge
  split
  next => exact h
  next hno =>
    unfold NoDupTriples
    rw [List.pairwise_append]
    refine ⟨h, List.pairwise_singleton _ _, ?_⟩
    intro x hx y hy
    rw [List.mem_singleton] at hy
    subst hy
    intro hs
    exact hno (List.any_eq_true.mpr
      ⟨x, hx, by simp [hs.1, hs.2.1, hs.2.2]⟩)

theorem expandFromCache_noDup (n : Nat) : ∀ (node : GraphNode) (st : St),
    NoDupTriples st.edges → NoDupTriples (expandFromCache n node st).edges := by
  induction n with
  | zero => intro node st h; exact h
  | succ n ih =>
    intro node st h
    unfold expandFromCache
    match node.outgoingEdges with
    | none => exact h
    | some es =>
      refine foldl_inv (fun s => NoDupTriples s.edges) _ ?_ es st h
      intro s e hs
      dsimp only
      split
      · exact dedupPush_noDup s e hs
      · split
        · exact dedupPush_noDup s e hs
        · exact ih _ _ (dedupPush_noDup s e hs)

theorem spliceStep_noDup (n : Nat) (st : St) (e : GraphEdge)
    (h : NoDupTriples st.edges) : NoDupTriples (spliceStep n st e).edges := by
  unfold spliceStep
  dsimp only
  split
  · exact dedupPush_noDup st e h
  · exact expandFromCache_noDup n _ _ (dedupPush_noDup st e h)

theorem spliceCached_noDup (n : Nat) (es : List GraphEdge) (st : St)
    (h : NoDupTriples st.edges) : NoDupTriples (spliceCached n es st).edges := by
  unfold spliceCached
  exact foldl_inv (fun s => NoDupTriples s.edges) _
    (fun b a hb => spliceStep_noDup n b a hb) es st h

/-- C9 (corrected): edges are append-only within a crawl (created, never
mutated or removed), and the duplicate suppression of the cache-replay paths
preserves uniqueness of (from, to, port) triples — but the fresh-path edge
pushes perform no duplicate check, so duplicate triples are reachable. -/
theorem C9_thm :
    (∀ (env : Env) (n : Nat) (chain : List DocumentSymbol) (uri : String)
        (st : St),
      ∃ l, (crawlRelationships env n chain uri st).edges = st.edges ++ l)
  ∧ (∀ (n : Nat) (es : List GraphEdge) (st : St),
      NoDupTriples st.edges → NoDupTriples (spliceCached n es st).edges)
  ∧ (∀ (n : Nat) (node : GraphNode) (st : St),
      NoDupTriples st.edges → NoDupTriples (expandFromCache n node st).edges) := by
  refine ⟨?_, ?_, ?_⟩
  · intro env n chain uri st
    exact (crawlRelationships_stepOK env n chain uri st).1
  · intro n es st h
    exact spliceCached_noDup n es st h
  · intro n node st h
    exact expandFromCache_noDup n node st h

theorem C9_thm_witness :
    (∃ l, (crawlRelationships mixEnv 3 [mixSymR] mixUri St.empty).edges
        = St.empty.edges ++ l)
  ∧ NoDupTriples (spliceCached 1 [hitEdgePQ] St.empty).edges
  ∧ NoDupTriples (expandFromCache 1 hitNodeP St.empty).edges :=
  ⟨C9_thm.1 mixEnv 3 [mixSymR] mixUri St.empty,
   C9_thm.2.1 1 [hitEdgePQ] St.empty List.Pairwise.nil,
   C9_thm.2.2 1 hitNodeP St.empty List.Pairwise.nil⟩

/-- C6, counterexample to the frozen claim: with a provider whose calls all
reject, the crawl propagates the error instead of returning a partial set. -/
theorem C6_cx :
    (generateGraphFromNode failEnv 5 "file:///f.rs" 0 St.empty).2
      = Except.error "boom" := rfl

/-- C6 (corrected): a provider failure during the resolution of one field is
caught and logged, the field skipped and the loop continues with unchanged
accumulated state — but a failure of the entry documentSymbols call of
generateGraphFromNode is not caught and propagates as an error, so not every
crawl returns a partial node and edge set. -/
theorem C6_thm :
    (∀ (crawlFn : List DocumentSymbol → String → St → St) (env : Env)
        (uri fromId targetName : String) (child : DocumentSymbol)
        (u : UnwrapResult) (st : St) (le : List GraphEdge)
        (st1 : St) (le1 : List GraphEdge) (err : String),
      resolveField crawlFn env uri fromId targetName child u st le
          = (st1, le1, some err) →
      catchField child
          (resolveField crawlFn env uri fromId targetName child u st le)
          = (pushLog st1 ("    ! Error resolving " ++ child.name ++ ": " ++ err),
             le)
        ∧ st1.edges = st.edges ∧ st1.allNodes = st.allNodes
        ∧ st1.visited = st.visited ∧ st1.rawCache = st.rawCache)
  ∧ (∀ (env : Env) (fuel : Nat) (uri : String) (pos : Pos) (st : St)
        (err : String),
      env.documentSymbols uri = .error err →
      (generateGraphFromNode env fuel uri pos st).2 = .error err) := by
  constructor
  · intro crawlFn env uri fromId targetName child u st le st1 le1 err h
    obtain ⟨he, hn, hv, hr, _, hle⟩ := resolveField_error crawlFn env uri fromId
      targetName child u st le st1 le1 err h
    refine ⟨?_, he, hn, hv, hr⟩
    rw [h]
    unfold catchField
    rw [hle]
  · intro env fuel uri pos st err h
    unfold generateGraphFromNode
    rw [h]

theorem C6_thm_witness :
    catchField loneSym
        (resolveField (fun _ _ s => s) failEnv "file:///f.rs" "F" "T" loneSym
          (unwrapType "T") St.empty [])
        = (pushLog (bump St.empty)
            ("    ! Error resolving " ++ loneSym.name ++ ": " ++ "boom"), [])
    ∧ (generateGraphFromNode failEnv 3 "file:///g.rs" 0 St.empty).2
        = Except.error "boom" :=
  ⟨(C6_thm.1 (fun _ _ s => s) failEnv "file:///f.rs" "F" "T" loneSym
      (unwrapType "T") St.empty [] (bump St.empty) [] "boom" rfl).1,
   C6_thm.2 failEnv 3 "file:///g.rs" 0 St.empty "boom" rfl⟩

/-- C7, counterexample to the frozen claim: a field-free node freshly expanded
by the crawl is absent from the raw cache after the crawl completes. -/
theorem C7_cx :
    listLookup (generateGraphFromNode mixEnv 10 mixUri 30 St.empty).1.rawCache
      "file:///m.rs#W" = none ∧
    (generateGraphFromNode mixEnv 10 mixUri 30 St.empty).2
      = .ok { nodes := [("file:///m.rs#W", mkFreshNode mixSymW mixUri "file:///m.rs#W")],
              edges := [] } := by
  constructor
  · decide
  · rfl

theorem C1_thm_witness :
    (rootIdOf (twoCycleEnv "A" "B") cycleUri 0).isSome = true
  ∧ (((generateGraphFromNode (twoCycleEnv "A" "B") 10 cycleUri 0
        (generateGraphFromNode (twoCycleEnv "A" "B") 10 cycleUri 0 St.empty).1).2
      = (generateGraphFromNode (twoCycleEnv "A" "B") 10 cycleUri 0 St.empty).2)
    ∧ (generateGraphFromNode (twoCycleEnv "A" "B") 10 cycleUri 0
        (generateGraphFromNode (twoCycleEnv "A" "B") 10 cycleUri 0 St.empty).1).1.calls
      = (generateGraphFromNode (twoCycleEnv "A" "B") 10 cycleUri 0 St.empty).1.calls
        + 1) :=
  ⟨by decide, C1_thm (twoCycleEnv "A" "B") 10 cycleUri 0 St.empty (by decide)⟩

theorem C2_thm_witness :
    ∃ g, (generateGraphFromNode (twoCycleEnv "A" "B") (0 + 2) cycleUri 0
        St.empty).2 = .ok g
      ∧ g.nodes.map Prod.fst = [cycleUri ++ "#" ++ "A", cycleUri ++ "#" ++ "B"]
      ∧ g.edges.map (fun e => (e.efrom, e.eto)) =
          [(cycleUri ++ "#" ++ "A", cycleUri ++ "#" ++ "B"),
           (cycleUri ++ "#" ++ "B", cycleUri ++ "#" ++ "A")] :=
  C2_thm "A" "B" (by decide) (by decide) (by decide) (by decide) (by decide)
    (by decide) (by decide) 0

theorem C4_thm_witness :
    ((crawlRelationships failEnv 3 [hitSymP] "u" hitState).calls = hitState.calls
      ∧ ∀ e ∈ [hitEdgePQ],
          tripleIn (crawlRelationships failEnv 3 [hitSymP] "u" hitState).edges e
          ∧ (listLookup (crawlRelationships failEnv 3 [hitSymP] "u"
              hitState).allNodes e.eto).isSome = true)
  ∧ crawlRelationships failEnv 3 [hitSymS] "u" hitState
      = freshExpand (crawlRelationships failEnv 2) failEnv "u" hitSymS
          (getTypeUniqueId [hitSymS] "u")
          (pushLog (rawHitState hitState (getTypeUniqueId [hitSymS] "u") hitNodeS)
            ("Raw Cache Partial" ++ " Hit: " ++ getTypeUniqueId [hitSymS] "u"
              ++ " (missing dependencies, re-resolving)")) :=
  ⟨(C4_thm failEnv 2 [hitSymP] "u" hitState hitSymP hitNodeP [hitEdgePQ]
      rfl (by decide) (by decide) rfl).1 (by decide),
   (C4_thm failEnv 2 [hitSymS] "u" hitState hitSymS hitNodeS [hitEdgeSM]
      rfl (by decide) (by decide) rfl).2 (by decide)⟩

theorem C7_thm_witness :
    ∃ L, listLookup (crawlRelationships loneEnv 3 [loneSym] loneUri
        St.empty).rawCache (getTypeUniqueId [loneSym] loneUri)
      = some { mkFreshNode loneSym loneUri (getTypeUniqueId [loneSym] loneUri) with
          outgoingEdges := some L }
    ∧ ∀ e ∈ L, e.efrom = getTypeUniqueId [loneSym] loneUri
      ∧ e ∈ (crawlRelationships loneEnv 3 [loneSym] loneUri St.empty).edges :=
  C7_thm loneEnv 2 [loneSym] loneUri St.empty loneSym rfl (by decide)
    trivial (by decide)

theorem C8_thm_witness :
    ∃ st1, resolveField (fun _ _ s => s) wrapEnv wrapUri "file:///x.rs#X" "Y"
        (.mk "items" "Arc<Y>" .fieldK ⟨1, 2⟩ ⟨1, 1⟩ []) (unwrapType "Arc<Y>")
        St.empty []
        = (st1, [] ++ [compEdge "file:///x.rs#X"
            (getTypeUniqueId (findSymChain [wrapSymX, wrapSymY] 10 []) wrapUri)
            (DocumentSymbol.name (.mk "items" "Arc<Y>" .fieldK ⟨1, 2⟩ ⟨1, 1⟩ []))
            (unwrapType "Arc<Y>").wrapperName], none)
      ∧ ∃ t, st1.edges = St.empty.edges ++ compEdge "file:///x.rs#X"
            (getTypeUniqueId (findSymChain [wrapSymX, wrapSymY] 10 []) wrapUri)
            (DocumentSymbol.name (.mk "items" "Arc<Y>" .fieldK ⟨1, 2⟩ ⟨1, 1⟩ []))
            (unwrapType "Arc<Y>").wrapperName :: t :=
  (C8_thm (fun _ _ s => s) (fun _ _ s => stepOK_refl s) wrapEnv wrapUri
      "file:///x.rs#X" "Y" (.mk "items" "Arc<Y>" .fieldK ⟨1, 2⟩ ⟨1, 1⟩ [])
      (unwrapType "Arc<Y>") St.empty [] ⟨wrapUriExt, 0⟩ []
      rfl (Or.inl (by decide))).2
    "Y" [⟨"Y", .structK, ⟨wrapUri, 10⟩⟩] ⟨"Y", .structK, ⟨wrapUri, 10⟩⟩
    [wrapSymX, wrapSymY] wrapSymY
    (by decide) (by decide) (by decide) rfl (List.cons_ne_nil _ _) rfl
    (by decide) (by decide) rfl (by decide) (by decide)

theorem C10_thm_witness :
    (∀ r, (generateGraphFromNode funOnlyEnv 5 wrapUri 0 St.empty).2 = .ok r →
      r.nodes = [])
  ∧ (generateGraphFromNode funOnlyEnv 5 wrapUri 0 St.empty).1.rawCache
      = St.empty.rawCache
  ∧ (generateGraphFromNode funOnlyEnv 5 wrapUri 0 St.empty).1.graphCache
      = St.empty.graphCache :=
  C10_thm funOnlyEnv 5 wrapUri 0 St.empty (by intro syms hs; cases hs; decide)
